import Mathlib

/-!
# serverless-webpack `lib/serve.js`: a shallow embedding

The module `lib/serve.js` simulates API Gateway locally: it turns the declared
functions of a service into express routes, invokes the bundled handler for
every request and swaps the handler in after every webpack rebuild.

Conventions of the embedding.

* Configuration data (functions, HTTP events, CORS policies, plugin options)
  is typed after the data model of the service definition.
* Run-time values that the code inspects dynamically (callback arguments, the
  loaded handler, request fields) are values of `JSVal`.
* A JavaScript object is the list of its own properties in the order of their
  declaration; `for ... in` visits them in the order `forInOrder`.
* Objects are taken by value; where the identity of an object matters (the
  arrays that hold the CORS defaults), an array object carries its address.
* The express response object is the list of the calls made on it.
* A mutable `funcConf` object captured by a closure is an index into the
  current list of FunctionConfigs, which is passed to the closure when it runs.
-/

namespace ServerlessWebpack

/-! ## JavaScript values -/

/-- JavaScript values as far as `serve.js` looks at them. Numbers are the
integers; a function value is an opaque reference. -/
inductive JSVal where
  | undefined
  | null
  | bool (b : Bool)
  | num (n : Int)
  | str (s : String)
  | arr (items : List JSVal)
  | obj (props : List (String × JSVal))
  | func (ref : Nat)
  deriving Repr, Inhabited

/-- Errors raised by the JavaScript run time or by a `throw` statement. -/
inductive JSError where
  | typeError (msg : String)
  | thrown (value : JSVal)
  deriving Repr

/-- JavaScript truthiness (`ToBoolean`): `undefined`, `null`, `false`, `0` and
the empty string are falsy, every other value is truthy. -/
def JSVal.truthy : JSVal → Bool
  | .undefined => false
  | .null => false
  | .bool b => b
  | .num n => n != 0
  | .str s => s != ""
  | .arr _ => true
  | .obj _ => true
  | .func _ => true

/-- The expression `a || b`. -/
def JSVal.or (a b : JSVal) : JSVal :=
  if a.truthy then a else b

/-- Property read `v.key` for a key that is no built-in property: a
`TypeError` on `undefined` and `null`, the own property of an object, and
`undefined` when there is none. -/
def JSVal.getProp (v : JSVal) (key : String) : Except JSError JSVal :=
  match v with
  | .undefined => .error (.typeError ("Cannot read property " ++ key ++ " of undefined"))
  | .null => .error (.typeError ("Cannot read property " ++ key ++ " of null"))
  | .obj props => .ok ((props.lookup key).getD .undefined)
  | _ => .ok .undefined

/-! ## Configuration data -/

/-- CORS policy of an HTTP event; every field may be missing. -/
structure CorsPolicy where
  allowCredentials : Option Bool := none
  origins : Option (List String) := none
  headers : Option (List String) := none
  methods : Option (List String) := none
  deriving Repr, DecidableEq

/-- A primitive value of the service definition. -/
inductive Primitive where
  | bool (b : Bool)
  | num (n : Int)
  | str (s : String)
  deriving Repr, DecidableEq

/-- Truthiness of a primitive: `false`, `0` and the empty string are falsy. -/
def Primitive.truthy : Primitive → Bool
  | .bool b => b
  | .num n => n != 0
  | .str s => s != ""

/-- The value of the `cors` key of an `http` event: missing (or `null`), a
primitive such as `true`, or a policy object. -/
inductive CorsValue where
  | absent
  | primitive (value : Primitive)
  | policy (cors : CorsPolicy)
  deriving Repr, DecidableEq

/-- The payload of an `http` event. -/
structure HttpEventConfig where
  method : String
  path : String
  integration : Option String := none
  cors : CorsValue := .absent
  deriving Repr, DecidableEq

/-- One entry of a function's `events` list: the own property `http` when the
event has one, and its remaining own properties. -/
structure EventDef where
  http : Option HttpEventConfig := none
  other : List (String × JSVal) := []
  deriving Repr

/-- `e.hasOwnProperty('http')`. -/
def EventDef.hasOwnPropertyHttp (e : EventDef) : Bool :=
  e.http.isSome

/-- A function definition of the service (`serverless.service.functions[name]`). -/
structure FunctionDef where
  handler : String
  events : List EventDef
  extra : List (String × JSVal) := []
  deriving Repr

/-- The object that `_getFuncConfigs` builds for a function with HTTP events:
the function definition (`handler`, `extra`) overridden with `id`, `events`,
`moduleName` and `handlerFunc`. -/
structure FunctionConfig where
  id : String
  events : List HttpEventConfig
  moduleName : String
  handlerFunc : JSVal
  handler : String
  extra : List (String × JSVal) := []
  deriving Repr

/-- `s.split(sep)` for a one-character separator, on the characters of `s`. -/
def splitChars (sep : Char) : List Char → List (List Char)
  | [] => [[]]
  | c :: cs =>
    if c = sep then [] :: splitChars sep cs
    else
      match splitChars sep cs with
      | [] => [[c]]
      | piece :: pieces => (c :: piece) :: pieces

/-- `handler.split('.')[0]`. -/
def splitDotFirst (handler : String) : String :=
  String.mk ((splitChars '.' handler.data).headD [])

/-! ## The plugin object and its collaborators -/

/-- The own properties of `serverless.service.functions` in the order of their
declaration. -/
abbrev Functions := List (String × FunctionDef)

/-- The array index that a property name stands for, if any: `0`, or decimal
digits without a leading zero, up to 4294967294. -/
def arrayIndex? (name : String) : Option Nat :=
  match name.data with
  | [] => none
  | '0' :: rest => if rest.isEmpty then some 0 else none
  | c :: rest =>
    if (c :: rest).all Char.isDigit then
      let n := (c :: rest).foldl (fun acc d => 10 * acc + (d.toNat - 48)) 0
      if n ≤ 4294967294 then some n else none
    else none

/-- Insertion of an indexed property before the first one with a larger or
equal index. -/
def insertIndexed {α : Type} (entry : Nat × α) : List (Nat × α) → List (Nat × α)
  | [] => [entry]
  | e :: es => if entry.1 ≤ e.1 then entry :: e :: es else e :: insertIndexed entry es

/-- The indexed properties in ascending order of their index. -/
def sortIndexed {α : Type} : List (Nat × α) → List (Nat × α)
  | [] => []
  | e :: es => insertIndexed e (sortIndexed es)

/-- The order in which `for ... in` visits the own properties of an object that
were declared in the order `props`: the properties whose name is an array
index first, in ascending order of the index, then the others in the order of
their declaration. -/
def forInOrder {α : Type} (props : List (String × α)) : List (String × α) :=
  (sortIndexed (props.filterMap (fun p => (arrayIndex? p.1).map (fun i => (i, p))))).map
      (fun e => e.2)
    ++ props.filter (fun p => (arrayIndex? p.1).isNone)

/-- One call `loadHandler(stats, id, flag)`. -/
structure LoadCall where
  stats : JSVal
  id : String
  flag : Bool
  deriving Repr

/-- A property `app[name]` of the express application: a routing method, which
registers the handler for the method; another function of the application,
with the error its call raises, if any; or no function at all. -/
inductive AppMember where
  | routing
  | other (raised : Option JSError)
  | missing

/-- The error that the call `app[method](path, handler)` raises, if any: a
TypeError when `app[method]` is no function. -/
def AppMember.callError : AppMember → Option JSError
  | .routing => none
  | .other raised => raised
  | .missing => some (.typeError "app[method] is not a function")

/-- What `serve.js` reaches through `this` and through the libraries it
requires. None of it is defined in `serve.js`, so all of it is a parameter.

* `stage`, `port`: `this.options.stage` and `this.options.port`.
* `functions`: `this.serverless.service.functions`.
* `getContext`: `this.getContext`.
* `loadHandler`: `this.loadHandler`; its result may depend on the calls made
  before (the loader keeps a module cache), so it also gets the earlier calls.
  A loader that raises an error is not modelled.
* `lambda`: the code of a loaded handler function: called with an event and a
  context it calls the callback with `(err, resp)`, or never calls it. A
  handler function that raises an error itself, or calls back twice, is not
  modelled.
* `appMember`: what the property of that name of the express application is,
  for the call `app[method](path, handler)` of line 60: a routing method
  (`app.get`, `app.post`, ...), another function (`app.use`, `app.listen`,
  ...), or nothing that can be called. The call `app.options(path,
  optionsHandler)` of line 59 names its method in the source; `options` is a
  routing method of express. -/
structure Plugin where
  stage : Option String := none
  port : Option Nat := none
  functions : Functions := []
  getContext : String → JSVal := fun _ => .undefined
  loadHandler : List LoadCall → JSVal → String → Bool → JSVal := fun _ _ _ _ => .undefined
  lambda : Nat → JSVal → JSVal → Option (JSVal × JSVal) := fun _ _ _ => none
  appMember : String → AppMember := fun _ => .routing

/-- `_getFuncConfigs()` (lines 71-89): the `for ... in` loop pushing one
FunctionConfig for every function whose filtered event list is non-empty. -/
def _getFuncConfigs (this : Plugin) : List FunctionConfig :=
  let inputfuncConfs := this.functions
  (forInOrder inputfuncConfs).foldl
    (fun funcConfs entry =>
      let funcName := entry.1
      let funcConf := entry.2
      -- `.filter(e => e.hasOwnProperty('http')).map(e => e.http)`: every event that
      -- passes the filter has the property
      let httpEvents : List HttpEventConfig :=
        (funcConf.events.filter (fun e => e.hasOwnPropertyHttp)).filterMap (fun e => e.http)
      if httpEvents.length > 0 then
        funcConfs ++ [{ id := funcName
                        events := httpEvents
                        moduleName := splitDotFirst funcConf.handler
                        handlerFunc := .null
                        handler := funcConf.handler
                        extra := funcConf.extra }]
      else funcConfs)
    []

/-- `_getPort()` (lines 91-93): `this.options.port || 8000`. -/
def _getPort (this : Plugin) : Nat :=
  match this.port with
  | some p => if p = 0 then 8000 else p
  | none => 8000

/-! ## Requests, responses and handlers -/

/-- The fields of an express request that `serve.js` reads. -/
structure Req where
  method : String
  headers : List (String × String) := []
  body : JSVal := .undefined
  params : JSVal := .obj []
  query : JSVal := .obj []
  deriving Repr

/-- `req.headers` as a JavaScript object. -/
def Req.headersObj (req : Req) : JSVal :=
  .obj (req.headers.map (fun h => (h.1, JSVal.str h.2)))

/-- A call made on the express response object `res`. -/
inductive ResCall where
  | header (name : String) (value : JSVal)
  | status (code : JSVal)
  | send (body : JSVal)
  | sendStatus (code : JSVal)
  deriving Repr

/-- A call `func(event, context, callback)` of a loaded handler function. -/
structure Invocation where
  func : Nat
  event : JSVal
  context : JSVal
  deriving Repr

/-- What running a handler did: the calls made on `res` (those made before
included), the handler functions it invoked, and the error it raised. -/
structure Outcome where
  res : List ResCall
  invoked : List Invocation := []
  thrown : Option JSError := none
  deriving Repr

/-- An express handler `(req, res, next) => ...`. Its first argument is the
current state of the FunctionConfig objects, its last the calls already made
on `res`. No handler of `serve.js` calls `next`. -/
abbrev Handler := List FunctionConfig → Req → List ResCall → Outcome

/-- The callback `(err, resp) => ...` that `_handlerBase` passes to the handler
function (lines 133-143). -/
def handlerCallback (isLambdaProxyIntegration : Bool) (err resp : JSVal)
    (res : List ResCall) : Except JSError (List ResCall) :=
  if err.truthy then
    .ok (res ++ [.status (.num 500), .send err])
  else if isLambdaProxyIntegration then do
    let statusCode ← resp.getProp "statusCode"
    let res1 := res ++ [.status (statusCode.or (.num 200))]
    let body ← resp.getProp "body"
    .ok (res1 ++ [.send body])
  else
    .ok (res ++ [.status (.num 200), .send resp])

/-- `httpEvent && httpEvent.integration !== 'lambda'` (line 117), as a truth value. -/
def isLambdaProxyIntegration (httpEvent : Option HttpEventConfig) : Bool :=
  match httpEvent with
  | none => false
  | some ev => ev.integration != some "lambda"

/-- `httpEvent ? '/' + httpEvent.path : '/'` (line 118). -/
def eventResource (httpEvent : Option HttpEventConfig) : String :=
  match httpEvent with
  | none => "/"
  | some ev => "/" ++ ev.path

/-- The event object of lines 122-131. -/
def invocationEvent (httpEvent : Option HttpEventConfig) (req : Req) : JSVal :=
  .obj [ ("method", .str req.method),
         ("headers", req.headersObj),
         ("body", req.body),
         ("resource", .str (eventResource httpEvent)),
         (if isLambdaProxyIntegration httpEvent then "pathParameters" else "path", req.params),
         (if isLambdaProxyIntegration httpEvent then "queryStringParameters" else "query",
           req.query) ]

/-- `_handlerBase(funcConf, httpEvent)` (lines 116-145). `funcConf` is the
position of the captured FunctionConfig object; the closure reads the object
when it runs. A position outside the list stands for no object at all and does
not occur for a handler registered by `_newExpressApp`. -/
def _handlerBase (this : Plugin) (funcConf : Nat) (httpEvent : Option HttpEventConfig) :
    Handler :=
  fun funcConfs req res =>
    match funcConfs[funcConf]? with
    | none => { res := res, thrown := some (.typeError "funcConf is not an object") }
    | some conf =>
      let func := conf.handlerFunc
      let event := invocationEvent httpEvent req
      let context := this.getContext conf.id
      match func with
      | .func f =>
        match this.lambda f event context with
        | none => { res := res, invoked := [⟨f, event, context⟩] }
        | some (err, resp) =>
          match handlerCallback (isLambdaProxyIntegration httpEvent) err resp res with
          | .ok res1 => { res := res1, invoked := [⟨f, event, context⟩] }
          | .error e => { res := res, invoked := [⟨f, event, context⟩], thrown := some e }
      | _ => { res := res, thrown := some (.typeError "func is not a function") }

/-- `_optionsHandler(req, res)` (lines 147-149). -/
def _optionsHandler : Handler :=
  fun _ _ res => { res := res ++ [.sendStatus (.num 200)] }

/-- `_handlerAddCors(handler, cors)` (lines 95-114): the wrapping handler, and
the policy object after the defaults have been written into it. The closure
reads the fields of that object, which nothing assigns afterwards. -/
def _handlerAddCors (handler : Handler) (cors : Option CorsPolicy) : Handler × CorsPolicy :=
  -- `cors = cors || {}`
  let cors0 : CorsPolicy := cors.getD {}
  -- `cors.allowCredentials = cors.allowCredentials || false`
  let allowCredentials : Bool := cors0.allowCredentials.getD false
  -- `cors.origins = cors.origins || ['*']`, and so on: an array is truthy, also when empty
  let origins : List String := cors0.origins.getD ["*"]
  let headers : List String :=
    cors0.headers.getD ["Authorization,Content-Type,x-amz-date,x-amz-security-token"]
  let methods : List String := cors0.methods.getD ["GET,PUT,HEAD,PATCH,POST,DELETE,OPTIONS"]
  (fun funcConfs req res =>
    let res1 :=
      if allowCredentials then
        res ++ [.header "Access-Control-Allow-Credentials" (.bool true)]
      else res
    let res2 := res1 ++ [.header "Access-Control-Allow-Origin" (.str (",".intercalate origins))]
    let res3 := res2 ++ [.header "Access-Control-Allow-Headers" (.str (",".intercalate headers))]
    let res4 := res3 ++ [.header "Access-Control-Allow-Methods" (.str (",".intercalate methods))]
    handler funcConfs req res4,
   { allowCredentials := some allowCredentials
     origins := some origins
     headers := some headers
     methods := some methods })

/-! ## Route registration -/

/-- Line terminators, the characters that `.` does not match in a regular
expression without the `s` flag. -/
def isLineTerminator (c : Char) : Bool :=
  c = '\n' || c = '\r' || c = '\u2028' || c = '\u2029'

/-- The rest of a match of `\{(.+?)\}` once the group has taken the characters
`group` (at least one): the lazy group stops at the first `}` and fails at a
line terminator or at the end of the input. Returns the group and the input
after the match. -/
def matchGroupRest (group : List Char) : List Char → Option (List Char × List Char)
  | [] => none
  | d :: ds =>
    if d = '}' then some (group, ds)
    else if isLineTerminator d then none
    else matchGroupRest (group ++ [d]) ds

/-- A match of `\{(.+?)\}` at the start of the input: the group and the input
after the match. The group takes one character that is no line terminator,
whatever it is, before it looks for the closing brace. -/
def matchPlaceholder : List Char → Option (List Char × List Char)
  | '{' :: c :: cs => if isLineTerminator c then none else matchGroupRest [c] cs
  | _ => none

/-- The scan of `replace(/\{(.+?)\}/g, ':$1')`: at a match, `:` and the group
are produced and the scan goes on after the match; elsewhere the character is
copied. Every step consumes input, so `fuel` at least the length of the input
is never used up. -/
def replacePlaceholdersFuel : Nat → List Char → List Char
  | 0, s => s
  | _ + 1, [] => []
  | fuel + 1, c :: cs =>
    match matchPlaceholder (c :: cs) with
    | some (group, rest) => (':' :: group) ++ replacePlaceholdersFuel fuel rest
    | none => c :: replacePlaceholdersFuel fuel cs

/-- The scan with fuel the length of the input. -/
def replaceChars (s : List Char) : List Char :=
  replacePlaceholdersFuel s.length s

/-- `endpoint.replace(/\{(.+?)\}/g, ':$1')` (line 52). -/
def replacePlaceholders (endpoint : String) : String :=
  String.mk (replaceChars endpoint.data)

/-- `String.prototype.toLowerCase`, on ASCII letters. -/
def toLowerCase (s : String) : String :=
  String.mk (s.data.map Char.toLower)

/-- `String.prototype.toUpperCase`, on ASCII letters. -/
def toUpperCase (s : String) : String :=
  String.mk (s.data.map Char.toUpper)

/-- The value of `endpoint` after lines 48-51. An empty stage is falsy. -/
def routeEndpoint (this : Plugin) (httpEvent : HttpEventConfig) : String :=
  let endpoint := "/" ++ httpEvent.path
  match this.stage with
  | some stage => if stage != "" then "/" ++ stage ++ endpoint else endpoint
  | none => endpoint

/-- The value of `path` at line 52. -/
def routePath (this : Plugin) (httpEvent : HttpEventConfig) : String :=
  replacePlaceholders (routeEndpoint this httpEvent)

/-- `/json/.test(s)` on the characters of `s`: the pattern has no flag. -/
def regexTestJson : List Char → Bool
  | [] => false
  | c :: cs => ['j', 's', 'o', 'n'].isPrefixOf (c :: cs) || regexTestJson cs

/-- The `type` option given to `bodyParser.json` (line 42):
`(req) => /json/.test(req.headers['content-type'])`. A missing header is
`undefined`, which `test` converts to the string `undefined`. -/
def bodyParserType (req : Req) : Bool :=
  match req.headers.lookup "content-type" with
  | some contentType => regexTestJson contentType.data
  | none => regexTestJson "undefined".data

/-- A call `app.options(path, handler)` or `app[method](path, handler)` that
returned: for a routing method it registers the handler for the method at the
path. -/
structure Route where
  method : String
  path : String
  handler : Handler

/-- The express application as `_newExpressApp` configures it. -/
structure App where
  bodyParserLimit : String := "5mb"
  bodyParserType : Req → Bool := fun _ => false
  routes : List Route := []
  consoleLog : List String := []

/-- Lines 53-58: the handler, the OPTIONS handler and the value of
`httpEvent.cors` afterwards. A falsy value skips the wrapping. A policy object
goes through `_handlerAddCors` twice, the second time with the defaults already
in place. For a truthy primitive such as `true`, `cors || {}` is the primitive
itself and the assignment `cors.allowCredentials = ...` of line 97 raises a
TypeError, the file being in strict mode. -/
def wrapWithCors (handler0 : Handler) (cors : CorsValue) :
    Except JSError (Handler × Handler × CorsValue) :=
  match cors with
  | .absent => .ok (handler0, _optionsHandler, .absent)
  | .primitive value =>
    if value.truthy then
      .error (.typeError "Cannot create property allowCredentials on a primitive value")
    else .ok (handler0, _optionsHandler, .primitive value)
  | .policy policy =>
    let h := _handlerAddCors handler0 (some policy)
    let o := _handlerAddCors _optionsHandler (some h.2)
    .ok (h.1, o.1, .policy o.2)

/-- The body of the inner loop of `_newExpressApp` (lines 47-64) for the event
`httpEvent` of the FunctionConfig at position `funcConf`: the application
after it and the event object after it. -/
def registerEvent (this : Plugin) (funcConf : Nat) (httpEvent : HttpEventConfig) (app : App) :
    Except JSError (App × HttpEventConfig) :=
  let method := toLowerCase httpEvent.method
  let endpoint := routeEndpoint this httpEvent
  let path := replacePlaceholders endpoint
  let handler0 := _handlerBase this funcConf (some httpEvent)
  match wrapWithCors handler0 httpEvent.cors with
  | .error e => .error e
  | .ok wrapped =>
    let handler := wrapped.1
    let optionsHandler := wrapped.2.1
    let routes1 := app.routes ++ [{ method := "options", path := path, handler := optionsHandler }]
    match (this.appMember method).callError with
    | some e => .error e
    | none =>
      .ok ({ app with
              routes := routes1 ++ [{ method := method, path := path, handler := handler }]
              consoleLog := app.consoleLog ++
                ["  " ++ toUpperCase method ++ " - http://localhost:" ++ toString (_getPort this)
                  ++ endpoint] },
           { httpEvent with cors := wrapped.2.2 })

/-- The inner loop `for (let httpEvent of funcConf.events)`. -/
def registerEvents (this : Plugin) (funcConf : Nat) :
    List HttpEventConfig → App → Except JSError (App × List HttpEventConfig)
  | [], app => .ok (app, [])
  | httpEvent :: rest, app => do
    let r ← registerEvent this funcConf httpEvent app
    let rs ← registerEvents this funcConf rest r.1
    .ok (rs.1, r.2 :: rs.2)

/-- The outer loop `for (let funcConf of funcConfs)`, from position `i` on. -/
def registerFuncConfs (this : Plugin) :
    Nat → List FunctionConfig → App → Except JSError (App × List FunctionConfig)
  | _, [], app => .ok (app, [])
  | i, funcConf :: rest, app => do
    let r ← registerEvents this i funcConf.events app
    let rs ← registerFuncConfs this (i + 1) rest r.1
    .ok (rs.1, { funcConf with events := r.2 } :: rs.2)

/-- `_newExpressApp(funcConfs)` (lines 37-69): the application, and the
FunctionConfig objects as the registration leaves them. -/
def _newExpressApp (this : Plugin) (funcConfs : List FunctionConfig) :
    Except JSError (App × List FunctionConfig) :=
  registerFuncConfs this 0 funcConfs { bodyParserLimit := "5mb", bodyParserType := bodyParserType }

/-! ## Identity of the objects that hold the CORS defaults -/

/-- An array object on the heap: its address and its items. Two array objects
are the same object exactly when they have the same address. -/
structure ArrayObject where
  address : Nat
  items : List String
  deriving Repr, DecidableEq

/-- A CORS policy object whose lists are array objects. -/
structure CorsObject where
  allowCredentials : Option Bool := none
  origins : Option ArrayObject := none
  headers : Option ArrayObject := none
  methods : Option ArrayObject := none
  deriving Repr, DecidableEq

/-- The policy that a policy object holds, addresses left out. -/
def CorsObject.policy (cors : CorsObject) : CorsPolicy :=
  { allowCredentials := cors.allowCredentials
    origins := cors.origins.map (fun a => a.items)
    headers := cors.headers.map (fun a => a.items)
    methods := cors.methods.map (fun a => a.items) }

/-- The value of `field || [items]` with `next` the first free address of the
heap, and the array objects created: the array literal is evaluated, and
creates an array object at `next`, only when the field is missing. -/
def orArrayLiteral (next : Nat) (field : Option ArrayObject) (items : List String) :
    ArrayObject × List ArrayObject :=
  match field with
  | some array => (array, [])
  | none => ({ address := next, items := items }, [{ address := next, items := items }])

/-- The assignments of lines 97-101 on the policy object `cors`, with `next` the
first free address of the heap: the object afterwards and the array objects
created, in the order of their creation. -/
def assignCorsDefaults (next : Nat) (cors : CorsObject) : CorsObject × List ArrayObject :=
  let allowCredentials := cors.allowCredentials.getD false
  let origins := orArrayLiteral next cors.origins ["*"]
  let headers := orArrayLiteral (next + origins.2.length) cors.headers
    ["Authorization,Content-Type,x-amz-date,x-amz-security-token"]
  let methods := orArrayLiteral (next + origins.2.length + headers.2.length) cors.methods
    ["GET,PUT,HEAD,PATCH,POST,DELETE,OPTIONS"]
  ({ allowCredentials := some allowCredentials
     origins := some origins.1
     headers := some headers.1
     methods := some methods.1 },
   origins.2 ++ headers.2 ++ methods.2)

/-- The assignments that `_newExpressApp` makes on the policy objects of the
HTTP events, in the order of the events (`none` for an event without a policy
object): each policy object goes through `_handlerAddCors` twice (lines 56 and
57). For every event, the policy object afterwards and the array objects
created for it. The policy objects of the events are taken to be separate
objects, as they are when every event of the service definition spells out its
own `cors` value. -/
def assignCorsDefaultsAll (next : Nat) :
    List (Option CorsObject) → List (Option CorsObject × List ArrayObject)
  | [] => []
  | none :: rest => (none, []) :: assignCorsDefaultsAll next rest
  | some cors :: rest =>
    let first := assignCorsDefaults next cors
    let second := assignCorsDefaults (next + first.2.length) first.1
    (some second.1, first.2 ++ second.2)
      :: assignCorsDefaultsAll (next + first.2.length + second.2.length) rest

/-! ## Hot reload -/

/-- `loadedModules.indexOf(moduleName)`: the first position, `-1` when there is none. -/
def indexOf (loadedModules : List String) (moduleName : String) : Int :=
  match loadedModules with
  | [] => -1
  | m :: rest =>
    if m = moduleName then 0
    else
      let i := indexOf rest moduleName
      if i < 0 then -1 else i + 1

/-- The state the watch callback works on: the FunctionConfig objects and the
calls of `loadHandler` made so far. -/
structure ServeState where
  funcConfs : List FunctionConfig
  loadCalls : List LoadCall := []

/-- The variables of the loop of lines 22-30. -/
structure WatchLoop where
  loadedModules : List String
  loadCalls : List LoadCall
  funcConfs : List FunctionConfig

/-- One iteration of the loop of lines 23-30. -/
def watchStep (this : Plugin) (stats : JSVal) (loop : WatchLoop) (funcConf : FunctionConfig) :
    WatchLoop :=
  let flag : Bool := indexOf loop.loadedModules funcConf.moduleName < 0
  let handlerFunc := this.loadHandler loop.loadCalls stats funcConf.id flag
  { loadedModules := loop.loadedModules ++ [funcConf.moduleName]
    loadCalls := loop.loadCalls ++ [{ stats := stats, id := funcConf.id, flag := flag }]
    funcConfs := loop.funcConfs ++ [{ funcConf with handlerFunc := handlerFunc }] }

/-- The callback given to `compiler.watch` (lines 18-31). -/
def watchCallback (this : Plugin) (err stats : JSVal) (state : ServeState) :
    Except JSError ServeState :=
  if err.truthy then
    .error (.thrown err)
  else
    let loop := state.funcConfs.foldl (watchStep this stats)
      { loadedModules := [], loadCalls := state.loadCalls, funcConfs := [] }
    .ok { funcConfs := loop.funcConfs, loadCalls := loop.loadCalls }

/-- The callback given to `compiler.watch` with what it leaves behind: the state
when it returns or raises, and the error it raises. `throw err` is its first
statement, before any assignment and any call of `loadHandler`. -/
def watchCallbackEffects (this : Plugin) (err stats : JSVal) (state : ServeState) :
    ServeState × Option JSError :=
  if err.truthy then
    (state, some (.thrown err))
  else
    let loop := state.funcConfs.foldl (watchStep this stats)
      { loadedModules := [], loadCalls := state.loadCalls, funcConfs := [] }
    ({ funcConfs := loop.funcConfs, loadCalls := loop.loadCalls }, none)

/-- `serve()` up to the call of `app.listen` (lines 9-15): the application and
the state that the watch callback will work on. -/
def serve (this : Plugin) : Except JSError (App × ServeState) := do
  let funcConfs := _getFuncConfigs this
  let r ← _newExpressApp this funcConfs
  .ok (r.1, { funcConfs := r.2 })

/-! ## Definitions used to state the properties -/

/-- The `http` payloads of an event list, in their order, every event without
an `http` key dropped. -/
def httpPayloads (events : List EventDef) : List HttpEventConfig :=
  events.filterMap (fun e => e.http)

/-- Whether a function definition has at least one event with an `http` key. -/
def hasHttpEvent (funcConf : FunctionDef) : Bool :=
  funcConf.events.any (fun e => e.hasOwnPropertyHttp)

/-- The FunctionConfig pushed for the function `entry`. -/
def funcConfigOf (entry : String × FunctionDef) : FunctionConfig :=
  { id := entry.1
    events := (entry.2.events.filter (fun e => e.hasOwnPropertyHttp)).filterMap (fun e => e.http)
    moduleName := splitDotFirst entry.2.handler
    handlerFunc := .null
    handler := entry.2.handler
    extra := entry.2.extra }

/-- A piece of a path template: literal text or a placeholder `{name}`. -/
inductive Segment where
  | text (chars : List Char)
  | placeholder (name : List Char)
  deriving Repr, DecidableEq

/-- No character of `cs` is a brace. -/
def braceFree (cs : List Char) : Bool :=
  cs.all (fun c => c != '{' && c != '}')

/-- No character of `cs` is a line terminator. -/
def singleLine (cs : List Char) : Bool :=
  cs.all (fun c => !isLineTerminator c)

/-- Literal text is brace-free; a placeholder name is non-empty and brace-free. -/
def Segment.wellFormed : Segment → Bool
  | .text chars => braceFree chars
  | .placeholder name => !name.isEmpty && braceFree name

/-- The name of a placeholder holds no line terminator. -/
def Segment.nameOnOneLine : Segment → Bool
  | .text _ => true
  | .placeholder name => singleLine name

/-- The segment as the event path writes it: a placeholder is `{name}`. -/
def Segment.source : Segment → List Char
  | .text chars => chars
  | .placeholder name => '{' :: name ++ ['}']

/-- The segment with the placeholder in express syntax, `:name`. -/
def Segment.express : Segment → List Char
  | .text chars => chars
  | .placeholder name => ':' :: name

/-- What the scan makes of a segment: a placeholder becomes `:name`, unless its
name holds a line terminator, in which case it stays as it is. -/
def Segment.rewritten : Segment → List Char
  | .text chars => chars
  | .placeholder name => if singleLine name then ':' :: name else '{' :: name ++ ['}']

/-- The stage part of a registered path: `/` and the stage when the stage
option is set to a non-empty string, nothing otherwise. -/
def stagePart (this : Plugin) : String :=
  match this.stage with
  | some stage => if stage != "" then "/" ++ stage else ""
  | none => ""


/-- The headers a CORS policy asks for, as the policy describes them: the
credentials header only when the flag is true, then origin, headers and methods
as comma-joined lists, a missing list replaced by its default. -/
def corsHeaders (cors : CorsPolicy) : List ResCall :=
  (if cors.allowCredentials = some true then
      [ResCall.header "Access-Control-Allow-Credentials" (.bool true)]
    else []) ++
  [ .header "Access-Control-Allow-Origin" (.str (",".intercalate (cors.origins.getD ["*"]))),
    .header "Access-Control-Allow-Headers" (.str (",".intercalate (cors.headers.getD
      ["Authorization", "Content-Type", "x-amz-date", "x-amz-security-token"]))),
    .header "Access-Control-Allow-Methods" (.str (",".intercalate (cors.methods.getD
      ["GET", "PUT", "HEAD", "PATCH", "POST", "DELETE", "OPTIONS"]))) ]

/-- The request has a Content-Type header whose value contains `json`, in
exactly this case. -/
def contentTypeHasJson (req : Req) : Prop :=
  ∃ contentType, req.headers.lookup "content-type" = some contentType ∧
    ['j', 's', 'o', 'n'] <:+: contentType.data

/-- The request has a Content-Type header whose value contains `json` in any
mix of upper and lower case. -/
def contentTypeHasJsonAnyCase (req : Req) : Prop :=
  ∃ contentType, req.headers.lookup "content-type" = some contentType ∧
    ['j', 's', 'o', 'n'] <:+: contentType.data.map Char.toLower

/-- The groups that the scan of `replacePlaceholdersFuel` captures, match after
match, with the same fuel. -/
def capturedGroupsFuel : Nat → List Char → List (List Char)
  | 0, _ => []
  | _ + 1, [] => []
  | fuel + 1, c :: cs =>
    match matchPlaceholder (c :: cs) with
    | some (group, rest) => group :: capturedGroupsFuel fuel rest
    | none => capturedGroupsFuel fuel cs

/-- The names that `replace(/\{(.+?)\}/g, ':$1')` captures in `s`. -/
def capturedGroups (s : String) : List (List Char) :=
  capturedGroupsFuel s.data.length s.data

/-- A CORS policy with every missing field replaced by its default. -/
def resolvedCors (cors : CorsPolicy) : CorsPolicy :=
  { allowCredentials := some (cors.allowCredentials.getD false)
    origins := some (cors.origins.getD ["*"])
    headers := some (cors.headers.getD
      ["Authorization,Content-Type,x-amz-date,x-amz-security-token"])
    methods := some (cors.methods.getD ["GET,PUT,HEAD,PATCH,POST,DELETE,OPTIONS"]) }

/-- An HTTP event with the CORS policy, when it has one, resolved. -/
def eventWithResolvedCors (httpEvent : HttpEventConfig) : HttpEventConfig :=
  { httpEvent with
    cors := match httpEvent.cors with
      | .policy cors => .policy (resolvedCors cors)
      | other => other }

/-- The CORS headers of an HTTP event: those of its policy, none without a
policy. -/
def eventCorsHeaders (httpEvent : HttpEventConfig) : List ResCall :=
  match httpEvent.cors with
  | .policy cors => corsHeaders cors
  | _ => []

/-- The calls `res.header(...)` among the calls made on `res`. -/
def headerCalls (calls : List ResCall) : List ResCall :=
  calls.filter (fun call =>
    match call with
    | .header _ _ => true
    | _ => false)

/-- All HTTP events of a list of FunctionConfigs, in order. -/
def allEvents (funcConfs : List FunctionConfig) : List HttpEventConfig :=
  funcConfs.flatMap (fun funcConf => funcConf.events)

/-- The method and path of the two registrations of an HTTP event: `options`,
then the lower-cased method, at the same path. -/
def eventRegistrations (this : Plugin) (httpEvent : HttpEventConfig) : List (String × String) :=
  [("options", routePath this httpEvent), (toLowerCase httpEvent.method, routePath this httpEvent)]

/-- The line logged for an HTTP event: the upper-cased method, the port and
the endpoint of lines 48-51, stage included. -/
def eventLogLine (this : Plugin) (httpEvent : HttpEventConfig) : String :=
  "  " ++ toUpperCase httpEvent.method ++ " - http://localhost:" ++ toString (_getPort this)
    ++ stagePart this ++ "/" ++ httpEvent.path

/-- The line that would be logged for an HTTP event without the stage. -/
def eventLogLineWithoutStage (this : Plugin) (httpEvent : HttpEventConfig) : String :=
  "  " ++ toUpperCase httpEvent.method ++ " - http://localhost:" ++ toString (_getPort this)
    ++ "/" ++ httpEvent.path

/-- The part of a handler reference before its first `.`, all of it when it has
no `.`. -/
def beforeFirstDot (handler : String) : String :=
  String.mk (handler.data.takeWhile (fun c => c != '.'))

/-- The response express sends for the calls made on `res`, reading them from
the status `status` on: `res.status(code)` sets the status, `res.send(body)`
sends the body with the status set, `res.sendStatus(code)` sets the status and
sends its status message, `res.header` sends nothing. `statusMessage` is the
table of status messages of express. -/
def sentResponseFrom (statusMessage : JSVal → JSVal) (status : JSVal) :
    List ResCall → Option (JSVal × JSVal)
  | [] => none
  | .header _ _ :: rest => sentResponseFrom statusMessage status rest
  | .status code :: rest => sentResponseFrom statusMessage code rest
  | .send body :: _ => some (status, body)
  | .sendStatus code :: _ => some (code, statusMessage code)

/-- The status and body express sends for the calls made on a fresh `res`,
whose status is 200 until it is set. -/
def sentResponse (statusMessage : JSVal → JSVal) (calls : List ResCall) : Option (JSVal × JSVal) :=
  sentResponseFrom statusMessage (.num 200) calls

/-- The status message of express for the one code that `serve.js` passes to
`res.sendStatus`: `OK` for 200. Other codes are not listed and stand for
themselves. -/
def expressStatusMessage : JSVal → JSVal
  | .num 200 => .str "OK"
  | code => code

/-- The routing methods of an express 4 application: `all` and the lower-cased
HTTP methods of Node. -/
def expressRoutingMethods : List String :=
  [ "all", "acl", "bind", "checkout", "connect", "copy", "delete", "get", "head", "link", "lock",
    "m-search", "merge", "mkactivity", "mkcalendar", "mkcol", "move", "notify", "options",
    "patch", "post", "propfind", "proppatch", "purge", "put", "rebind", "report", "search",
    "source", "subscribe", "trace", "unbind", "unlink", "unlock", "unsubscribe" ]

/-- The two routes of an HTTP event of the FunctionConfig at position
`funcConf`: the OPTIONS handler and the base handler, each run after the CORS
headers of the event have been set. -/
def expectedRoutes (this : Plugin) (funcConf : Nat) (httpEvent : HttpEventConfig) : List Route :=
  [ { method := "options"
      path := routePath this httpEvent
      handler := fun funcConfs req res =>
        _optionsHandler funcConfs req (res ++ eventCorsHeaders httpEvent) },
    { method := toLowerCase httpEvent.method
      path := routePath this httpEvent
      handler := fun funcConfs req res =>
        _handlerBase this funcConf (some httpEvent) funcConfs req
          (res ++ eventCorsHeaders httpEvent) } ]

/-- The routes of the FunctionConfigs `funcConfs`, the first of which is at
position `i`. -/
def expectedRoutesFrom (this : Plugin) : Nat → List FunctionConfig → List Route
  | _, [] => []
  | i, funcConf :: rest =>
    funcConf.events.flatMap (expectedRoutes this i) ++ expectedRoutesFrom this (i + 1) rest

/-- The line that line 64 logs for an HTTP event. -/
def loggedLine (this : Plugin) (httpEvent : HttpEventConfig) : String :=
  "  " ++ toUpperCase (toLowerCase httpEvent.method) ++ " - http://localhost:"
    ++ toString (_getPort this) ++ routeEndpoint this httpEvent

/-- An HTTP event with the CORS policy `{allowCredentials: true, origins:
["https://x"]}`. -/
def corsExampleEvent : HttpEventConfig :=
  { method := "GET"
    path := "x"
    cors := .policy { allowCredentials := some true, origins := some ["https://x"] } }

/-- A FunctionConfig whose one event is `corsExampleEvent`. -/
def corsExampleConfig : FunctionConfig :=
  { id := "f"
    events := [corsExampleEvent]
    moduleName := "h"
    handlerFunc := .null
    handler := "h.f" }

/-- Functions of an express 4 application that are no routing methods and
whose call with a path and a handler returns. -/
def expressOtherFunctions : List String :=
  ["use", "set", "enable", "disable", "enabled", "disabled", "param", "route", "path", "listen"]

/-- A plugin whose express application has the routing methods of express and
the functions `expressOtherFunctions`; every other name is taken to be no
function of the application. This holds of `foo`, the one such name used
below; the members that an application inherits from the event emitter and the
like are left out. -/
def expressPlugin : Plugin :=
  { appMember := fun method =>
      if method ∈ expressRoutingMethods then .routing
      else if method ∈ expressOtherFunctions then .other none
      else .missing }

/-- A FunctionConfig whose one event has `cors: true`. -/
def corsTrueConfig : FunctionConfig :=
  { id := "f"
    events := [{ method := "GET", path := "x", cors := .primitive (.bool true) }]
    moduleName := "h"
    handlerFunc := .null
    handler := "h.f" }

/-- A FunctionConfig with one event for each of the methods `GET`, `Get` and
`get`. -/
def mixedCaseConfig : FunctionConfig :=
  { id := "f"
    events := [ { method := "GET", path := "a" },
                { method := "Get", path := "b", cors := .policy {} },
                { method := "get", path := "c" } ]
    moduleName := "h"
    handlerFunc := .null
    handler := "h.f" }

/-- A FunctionConfig whose one event has the method `FOO`. -/
def unknownMethodConfig : FunctionConfig :=
  { id := "f"
    events := [{ method := "FOO", path := "a" }]
    moduleName := "h"
    handlerFunc := .null
    handler := "h.f" }

/-- A FunctionConfig whose one event has the empty CORS policy `{}`. -/
def emptyCorsConfig : FunctionConfig :=
  { id := "f"
    events := [{ method := "GET", path := "x", cors := .policy {} }]
    moduleName := "h"
    handlerFunc := .null
    handler := "h.f" }

/-- A FunctionConfig whose one event is `GET x`, without a CORS policy. -/
def plainConfig : FunctionConfig :=
  { id := "f"
    events := [{ method := "GET", path := "x" }]
    moduleName := "h"
    handlerFunc := .null
    handler := "h.f" }

/-- Four functions declared in the order `b`, `10`, `9`, `a`, each with one
`http` event. -/
def mixedNamesFunctions : Functions :=
  [ ("b", { handler := "h.b", events := [{ http := some { method := "GET", path := "b" } }] }),
    ("10", { handler := "h.x", events := [{ http := some { method := "GET", path := "x" } }] }),
    ("9", { handler := "h.y", events := [{ http := some { method := "GET", path := "y" } }] }),
    ("a", { handler := "h.a", events := [{ http := some { method := "GET", path := "a" } }] }) ]

/-- The registration of the HTTP event goes through: the call
`app[method](path, handler)` raises no error and the `cors` value is no truthy
primitive. -/
def eventRegisters (this : Plugin) (httpEvent : HttpEventConfig) : Prop :=
  (this.appMember (toLowerCase httpEvent.method)).callError = none ∧
  ∀ value, httpEvent.cors = .primitive value → value.truthy = false

/-- The HTTP event is one that the claim on registrations is about: its
lower-cased method names a routing method of the express application and its
`cors` value is missing, a falsy primitive or a policy object. -/
def eventIsRoutable (this : Plugin) (httpEvent : HttpEventConfig) : Prop :=
  this.appMember (toLowerCase httpEvent.method) = .routing ∧
  ∀ value, httpEvent.cors = .primitive value → value.truthy = false

/-- The policy object of a `cors` value, if it is one. -/
def CorsValue.policy? : CorsValue → Option CorsPolicy
  | .policy cors => some cors
  | _ => none

/-- The addresses of the array objects created for each event. -/
def createdAddresses (results : List (Option CorsObject × List ArrayObject)) : List (List Nat) :=
  results.map (fun result => result.2.map (fun array => array.address))

/-- The field of a policy object after the build, given the field before and
the array objects created for the event: a field that was there is the same
object; a field that was missing is one of the created objects and holds the
default `items`. -/
def fieldAfter (before after : Option ArrayObject) (created : List ArrayObject)
    (items : List String) : Prop :=
  match before with
  | some array => after = some array
  | none => ∃ array, after = some array ∧ array ∈ created ∧ array.items = items

/-- The policy object of an event after the build, given the object before and
what `assignCorsDefaultsAll` gives for the event: an event without a policy
object has none afterwards and no array object is created for it; a policy
object has `allowCredentials` set, keeps the array objects it had, and every
field it missed is one of the array objects created for this event and holds
the default of the field. -/
def policyObjectAfter (before : Option CorsObject)
    (result : Option CorsObject × List ArrayObject) : Prop :=
  match before with
  | none => result = (none, [])
  | some cors =>
    ∃ after, result.1 = some after ∧
      after.allowCredentials = some (cors.allowCredentials.getD false) ∧
      fieldAfter cors.origins after.origins result.2 ["*"] ∧
      fieldAfter cors.headers after.headers result.2
        ["Authorization,Content-Type,x-amz-date,x-amz-security-token"] ∧
      fieldAfter cors.methods after.methods result.2
        ["GET,PUT,HEAD,PATCH,POST,DELETE,OPTIONS"]

/-- A FunctionConfig with two events: one whose policy has only `origins`, one
with the empty policy `{}`. -/
def partialCorsConfig : FunctionConfig :=
  { id := "f"
    events := [ { method := "GET", path := "x", cors := .policy { origins := some ["https://x"] } },
                { method := "POST", path := "y", cors := .policy {} } ]
    moduleName := "h"
    handlerFunc := .null
    handler := "h.f" }

/-- The policy objects of the events of `partialCorsConfig`, the array of the
first at the address 0. -/
def partialCorsObjects : List (Option CorsObject) :=
  [ some { origins := some { address := 0, items := ["https://x"] } }, some {} ]

/-! # Properties -/

/-! ## `_getFuncConfigs` -/

theorem filter_filterMap_http (events : List EventDef) :
    (events.filter (fun e => e.hasOwnPropertyHttp)).filterMap (fun e => e.http)
      = httpPayloads events := by
  induction events with
  | nil => rfl
  | cons e es ih =>
    cases h : e.http with
    | none =>
      simp [List.filter, EventDef.hasOwnPropertyHttp, httpPayloads, h] at ih ⊢
      exact ih
    | some c =>
      simp [List.filter, EventDef.hasOwnPropertyHttp, httpPayloads, h] at ih ⊢
      exact ih

theorem httpPayloads_length_pos (events : List EventDef) :
    (httpPayloads events).length > 0 ↔ events.any (fun e => e.hasOwnPropertyHttp) = true := by
  induction events with
  | nil => simp [httpPayloads]
  | cons e es ih =>
    cases h : e.http with
    | none =>
      simp [httpPayloads, EventDef.hasOwnPropertyHttp, h] at ih ⊢
      exact ih
    | some c => simp [httpPayloads, EventDef.hasOwnPropertyHttp, h]

theorem getFuncConfigs_foldl (fns : Functions) (acc : List FunctionConfig) :
    fns.foldl
      (fun funcConfs entry =>
        let funcName := entry.1
        let funcConf := entry.2
        let httpEvents : List HttpEventConfig :=
          (funcConf.events.filter (fun e => e.hasOwnPropertyHttp)).filterMap (fun e => e.http)
        if httpEvents.length > 0 then
          funcConfs ++ [{ id := funcName
                          events := httpEvents
                          moduleName := splitDotFirst funcConf.handler
                          handlerFunc := .null
                          handler := funcConf.handler
                          extra := funcConf.extra }]
        else funcConfs) acc
      = acc ++ (fns.filter (fun f => hasHttpEvent f.2)).map funcConfigOf := by
  induction fns generalizing acc with
  | nil => simp
  | cons f fs ih =>
    simp only [List.foldl_cons]
    rw [ih]
    have hpos := httpPayloads_length_pos f.2.events
    rw [← filter_filterMap_http] at hpos
    by_cases h : hasHttpEvent f.2 = true
    · have h2 := hpos.mpr h
      simp [List.filter, h, h2, funcConfigOf]
    · have h2 : ¬ ((f.2.events.filter (fun e => e.hasOwnPropertyHttp)).filterMap
          (fun e => e.http)).length > 0 := fun hc => h (hpos.mp hc)
      simp only [Bool.not_eq_true] at h
      simp only [List.filter, h, if_neg h2]

theorem getFuncConfigs_eq (this : Plugin) :
    _getFuncConfigs this
      = ((forInOrder this.functions).filter (fun f => hasHttpEvent f.2)).map funcConfigOf := by
  unfold _getFuncConfigs
  simpa using getFuncConfigs_foldl (forInOrder this.functions) []

theorem insertIndexed_perm {α : Type} (entry : Nat × α) (l : List (Nat × α)) :
    (insertIndexed entry l).Perm (entry :: l) := by
  induction l with
  | nil => exact List.Perm.refl _
  | cons e es ih =>
    unfold insertIndexed
    split
    · exact List.Perm.refl _
    · exact (List.Perm.cons e ih).trans (List.Perm.swap entry e es)

theorem sortIndexed_perm {α : Type} (l : List (Nat × α)) : (sortIndexed l).Perm l := by
  induction l with
  | nil => exact List.Perm.refl _
  | cons e es ih =>
    unfold sortIndexed
    exact (insertIndexed_perm e _).trans (List.Perm.cons e ih)

theorem insertIndexed_sorted {α : Type} (entry : Nat × α) (l : List (Nat × α))
    (h : l.Pairwise (fun a b => a.1 ≤ b.1)) :
    (insertIndexed entry l).Pairwise (fun a b => a.1 ≤ b.1) := by
  induction l with
  | nil => simp [insertIndexed]
  | cons e es ih =>
    unfold insertIndexed
    rw [List.pairwise_cons] at h
    split
    · rename_i hle
      rw [List.pairwise_cons]
      refine ⟨?_, List.pairwise_cons.mpr h⟩
      intro x hx
      rcases List.mem_cons.mp hx with rfl | hx
      · exact hle
      · exact Nat.le_trans hle (h.1 x hx)
    · rename_i hnle
      rw [List.pairwise_cons]
      refine ⟨?_, ih h.2⟩
      intro x hx
      have hx2 := (insertIndexed_perm entry es).subset hx
      rcases List.mem_cons.mp hx2 with rfl | hx2
      · omega
      · exact h.1 x hx2

theorem sortIndexed_sorted {α : Type} (l : List (Nat × α)) :
    (sortIndexed l).Pairwise (fun a b => a.1 ≤ b.1) := by
  induction l with
  | nil => exact List.Pairwise.nil
  | cons e es ih =>
    unfold sortIndexed
    exact insertIndexed_sorted e _ ih

theorem sortIndexed_index {α : Type} (props : List (String × α)) :
    ∀ e ∈ sortIndexed (props.filterMap (fun p => (arrayIndex? p.1).map (fun i => (i, p)))),
      arrayIndex? e.2.1 = some e.1 := by
  intro e he
  have hmem := (sortIndexed_perm _).subset he
  rw [List.mem_filterMap] at hmem
  obtain ⟨p, _, hp⟩ := hmem
  cases hidx : arrayIndex? p.1 with
  | none => simp [hidx] at hp
  | some i =>
    simp only [hidx, Option.map_some', Option.some.injEq] at hp
    rw [← hp]
    exact hidx

theorem forInOrder_perm {α : Type} (props : List (String × α)) :
    (forInOrder props).Perm props := by
  unfold forInOrder
  have h1 : ((sortIndexed (props.filterMap
      (fun p => (arrayIndex? p.1).map (fun i => (i, p))))).map (fun e => e.2)).Perm
      (props.filter (fun p => (arrayIndex? p.1).isSome)) := by
    refine ((sortIndexed_perm _).map _).trans ?_
    apply List.Perm.of_eq
    induction props with
    | nil => rfl
    | cons p ps ih =>
      cases hidx : arrayIndex? p.1 with
      | none => simpa [List.filterMap_cons, List.filter_cons, hidx] using ih
      | some i => simpa [List.filterMap_cons, List.filter_cons, hidx] using ih
  refine (List.Perm.append h1 (List.Perm.refl _)).trans ?_
  have h2 := List.filter_append_perm (fun p : String × α => (arrayIndex? p.1).isSome) props
  refine List.Perm.trans ?_ h2
  apply List.Perm.append (List.Perm.refl _)
  apply List.Perm.of_eq
  apply List.filter_congr
  intro p _
  cases arrayIndex? p.1 <;> rfl

theorem forInOrder_of_no_index {α : Type} (props : List (String × α))
    (h : ∀ p ∈ props, arrayIndex? p.1 = none) : forInOrder props = props := by
  unfold forInOrder
  have h1 : props.filterMap (fun p => (arrayIndex? p.1).map (fun i => (i, p))) = [] := by
    rw [List.filterMap_eq_nil_iff]
    intro p hp
    simp [h p hp]
  have h2 : props.filter (fun p => (arrayIndex? p.1).isNone) = props := by
    rw [List.filter_eq_self]
    intro p hp
    simp [h p hp]
  rw [h1, h2]
  rfl

/-- C1 (amended): `_getFuncConfigs` returns one FunctionConfig for each function
that has at least one event with an `http` key and none for the other
functions; its id is the function name and its events are the `http` payloads
of the function's events, in their order, events without an `http` key
dropped. The FunctionConfigs come in the order in which `for ... in` visits
the functions: the names that are array indices first, in ascending order of
the index, then the other names in the order of their declaration, which is
the order of declaration when no name is an array index. -/
theorem getFuncConfigs_one_per_http_function (this : Plugin) :
    (_getFuncConfigs this).map (fun c => (c.id, c.events))
      = ((forInOrder this.functions).filter (fun f => hasHttpEvent f.2)).map
          (fun f => (f.1, httpPayloads f.2.events)) ∧
    (forInOrder this.functions).Perm this.functions ∧
    (∃ indexed : List (Nat × String × FunctionDef),
      forInOrder this.functions
        = indexed.map (fun e => e.2)
          ++ this.functions.filter (fun f => (arrayIndex? f.1).isNone) ∧
      (∀ e ∈ indexed, arrayIndex? e.2.1 = some e.1) ∧
      indexed.Pairwise (fun a b => a.1 ≤ b.1)) ∧
    ((∀ f ∈ this.functions, arrayIndex? f.1 = none) →
      (_getFuncConfigs this).map (fun c => (c.id, c.events))
        = (this.functions.filter (fun f => hasHttpEvent f.2)).map
            (fun f => (f.1, httpPayloads f.2.events))) := by
  have hmain : (_getFuncConfigs this).map (fun c => (c.id, c.events))
      = ((forInOrder this.functions).filter (fun f => hasHttpEvent f.2)).map
          (fun f => (f.1, httpPayloads f.2.events)) := by
    rw [getFuncConfigs_eq, List.map_map]
    apply List.map_congr_left
    intro f _
    simp [funcConfigOf, filter_filterMap_http]
  refine ⟨hmain, forInOrder_perm _, ⟨_, rfl, sortIndexed_index _, sortIndexed_sorted _⟩, ?_⟩
  intro hnone
  rw [hmain, forInOrder_of_no_index _ hnone]

/-- Counterexample to C1 as stated: of the functions declared in the order `b`,
`10`, `9`, `a`, all with an `http` event, the FunctionConfigs come in the
order `9`, `10`, `b`, `a`. -/
theorem getFuncConfigs_not_in_declaration_order :
    mixedNamesFunctions.map (fun f => f.1) = ["b", "10", "9", "a"] ∧
    (∀ f ∈ mixedNamesFunctions, hasHttpEvent f.2 = true) ∧
    (_getFuncConfigs { functions := mixedNamesFunctions }).map (fun c => c.id)
      = ["9", "10", "b", "a"] ∧
    (_getFuncConfigs { functions := mixedNamesFunctions }).map (fun c => c.id)
      ≠ mixedNamesFunctions.map (fun f => f.1) := by
  refine ⟨by decide, ?_, by decide, by decide⟩
  intro f hf
  simp only [mixedNamesFunctions, List.mem_cons, List.mem_singleton, List.not_mem_nil,
    or_false] at hf
  rcases hf with rfl | rfl | rfl | rfl <;> rfl

/-! ## Path rewriting -/

theorem matchGroupRest_length (group g : List Char) (s rest : List Char)
    (h : matchGroupRest group s = some (g, rest)) : rest.length < s.length := by
  induction s generalizing group with
  | nil => simp [matchGroupRest] at h
  | cons d ds ih =>
    unfold matchGroupRest at h
    split at h
    · simp only [Option.some.injEq, Prod.mk.injEq] at h
      rw [← h.2]; simp
    · split at h
      · simp at h
      · have := ih _ h
        simp only [List.length_cons]; omega

theorem matchPlaceholder_length (s g rest : List Char)
    (h : matchPlaceholder s = some (g, rest)) : rest.length < s.length := by
  unfold matchPlaceholder at h
  split at h
  · split at h
    · simp at h
    · have := matchGroupRest_length _ _ _ _ h
      simp only [List.length_cons]; omega
  · simp at h

theorem replaceFuel_stable (n m : Nat) (s : List Char) (hn : s.length ≤ n) (hm : s.length ≤ m) :
    replacePlaceholdersFuel n s = replacePlaceholdersFuel m s := by
  induction n generalizing m s with
  | zero =>
    have : s = [] := List.length_eq_zero.mp (by omega)
    subst this
    cases m <;> simp [replacePlaceholdersFuel]
  | succ n ih =>
    cases s with
    | nil => cases m <;> simp [replacePlaceholdersFuel]
    | cons c cs =>
      cases m with
      | zero => simp at hm
      | succ m =>
        simp only [replacePlaceholdersFuel]
        simp only [List.length_cons] at hn hm
        cases hmatch : matchPlaceholder (c :: cs) with
        | none =>
          simp only
          rw [ih m cs (by omega) (by omega)]
        | some r =>
          obtain ⟨g, rest⟩ := r
          have hl := matchPlaceholder_length _ _ _ hmatch
          simp only [List.length_cons] at hl
          simp only
          rw [ih m rest (by omega) (by omega)]

theorem replaceChars_nil : replaceChars [] = [] := by
  simp [replaceChars, replacePlaceholdersFuel]

theorem replaceChars_cons (c : Char) (cs : List Char) :
    replaceChars (c :: cs) =
      match matchPlaceholder (c :: cs) with
      | some (group, rest) => (':' :: group) ++ replaceChars rest
      | none => c :: replaceChars cs := by
  simp only [replaceChars, List.length_cons, replacePlaceholdersFuel]
  cases hmatch : matchPlaceholder (c :: cs) with
  | none => rfl
  | some r =>
    obtain ⟨g, rest⟩ := r
    have hl := matchPlaceholder_length _ _ _ hmatch
    simp only [List.length_cons] at hl
    simp only
    rw [replaceFuel_stable cs.length rest.length rest (by omega) (by omega)]


theorem matchPlaceholder_of_ne (c : Char) (cs : List Char) (h : c ≠ '{') :
    matchPlaceholder (c :: cs) = none := by
  unfold matchPlaceholder
  split
  · rename_i heq
    simp only [List.cons.injEq] at heq
    exact absurd heq.1 h
  · rfl

theorem replaceChars_cons_of_ne (c : Char) (cs : List Char) (h : c ≠ '{') :
    replaceChars (c :: cs) = c :: replaceChars cs := by
  rw [replaceChars_cons, matchPlaceholder_of_ne c cs h]

theorem replaceChars_append_of_no_open (t s : List Char) (h : ∀ c ∈ t, c ≠ '{') :
    replaceChars (t ++ s) = t ++ replaceChars s := by
  induction t with
  | nil => rfl
  | cons c cs ih =>
    have hc : c ≠ '{' := h c (List.mem_cons_self _ _)
    have hcs : ∀ d ∈ cs, d ≠ '{' := fun d hd => h d (List.mem_cons_of_mem _ hd)
    rw [List.cons_append, replaceChars_cons_of_ne _ _ hc, ih hcs, List.cons_append]

theorem matchGroupRest_closing (group m s : List Char)
    (hclose : ∀ c ∈ m, c ≠ '}') (hline : ∀ c ∈ m, isLineTerminator c = false) :
    matchGroupRest group (m ++ '}' :: s) = some (group ++ m, s) := by
  induction m generalizing group with
  | nil => simp [matchGroupRest]
  | cons d ds ih =>
    have hd : d ≠ '}' := hclose d (List.mem_cons_self _ _)
    have hl : isLineTerminator d = false := hline d (List.mem_cons_self _ _)
    rw [List.cons_append, matchGroupRest, if_neg hd]
    simp only [hl, Bool.false_eq_true, if_false]
    rw [ih _ (fun c hc => hclose c (List.mem_cons_of_mem _ hc))
      (fun c hc => hline c (List.mem_cons_of_mem _ hc))]
    simp

theorem matchGroupRest_line_break (group m s : List Char)
    (hclose : ∀ c ∈ m, c ≠ '}') (hline : ∃ c ∈ m, isLineTerminator c = true) :
    matchGroupRest group (m ++ s) = none := by
  induction m generalizing group with
  | nil => simp at hline
  | cons d ds ih =>
    have hd : d ≠ '}' := hclose d (List.mem_cons_self _ _)
    rw [List.cons_append, matchGroupRest, if_neg hd]
    by_cases hl : isLineTerminator d = true
    · simp [hl]
    · simp only [hl, if_false]
      apply ih _ (fun c hc => hclose c (List.mem_cons_of_mem _ hc))
      obtain ⟨c, hc, hcl⟩ := hline
      rcases List.mem_cons.mp hc with rfl | hc
      · exact absurd hcl hl
      · exact ⟨c, hc, hcl⟩

theorem matchPlaceholder_name (name s : List Char) (hne : name ≠ [])
    (hclose : ∀ c ∈ name, c ≠ '}') (hline : ∀ c ∈ name, isLineTerminator c = false) :
    matchPlaceholder ('{' :: (name ++ '}' :: s)) = some (name, s) := by
  cases name with
  | nil => exact absurd rfl hne
  | cons c cs =>
    have hl : isLineTerminator c = false := hline c (List.mem_cons_self _ _)
    simp only [List.cons_append, matchPlaceholder, hl, Bool.false_eq_true, if_false]
    rw [matchGroupRest_closing _ _ _ (fun d hd => hclose d (List.mem_cons_of_mem _ hd))
      (fun d hd => hline d (List.mem_cons_of_mem _ hd))]
    simp

theorem matchPlaceholder_name_line_break (name s : List Char)
    (hclose : ∀ c ∈ name, c ≠ '}') (hline : ∃ c ∈ name, isLineTerminator c = true) :
    matchPlaceholder ('{' :: (name ++ s)) = none := by
  cases name with
  | nil => simp at hline
  | cons c cs =>
    simp only [List.cons_append, matchPlaceholder]
    by_cases hl : isLineTerminator c = true
    · simp [hl]
    · simp only [hl, if_false]
      apply matchGroupRest_line_break _ _ _ (fun d hd => hclose d (List.mem_cons_of_mem _ hd))
      obtain ⟨d, hd, hdl⟩ := hline
      rcases List.mem_cons.mp hd with rfl | hd
      · exact absurd hdl hl
      · exact ⟨d, hd, hdl⟩

theorem braceFree_iff (cs : List Char) :
    braceFree cs = true ↔ (∀ c ∈ cs, c ≠ '{') ∧ (∀ c ∈ cs, c ≠ '}') := by
  simp only [braceFree, List.all_eq_true, Bool.and_eq_true, bne_iff_ne, ne_eq]
  constructor
  · intro h
    exact ⟨fun c hc => (h c hc).1, fun c hc => (h c hc).2⟩
  · intro h c hc
    exact ⟨h.1 c hc, h.2 c hc⟩

theorem singleLine_iff (cs : List Char) :
    singleLine cs = true ↔ ∀ c ∈ cs, isLineTerminator c = false := by
  simp [singleLine, List.all_eq_true]

theorem not_singleLine_iff (cs : List Char) :
    ¬ singleLine cs = true ↔ ∃ c ∈ cs, isLineTerminator c = true := by
  simp [singleLine, List.all_eq_true]

theorem replaceChars_source (seg : Segment) (s : List Char) (hwf : seg.wellFormed = true) :
    replaceChars (seg.source ++ s) = seg.rewritten ++ replaceChars s := by
  cases seg with
  | text chars =>
    simp only [Segment.wellFormed] at hwf
    exact replaceChars_append_of_no_open _ _ ((braceFree_iff _).mp hwf).1
  | placeholder name =>
    simp only [Segment.wellFormed, Bool.and_eq_true, Bool.not_eq_true', List.isEmpty_eq_false] at hwf
    obtain ⟨hne, hbf⟩ := hwf
    obtain ⟨hopen, hclose⟩ := (braceFree_iff _).mp hbf
    simp only [Segment.source, Segment.rewritten]
    by_cases hsl : singleLine name = true
    · simp only [hsl, if_true, List.cons_append, List.append_assoc, List.nil_append]
      rw [replaceChars_cons, matchPlaceholder_name name s hne hclose ((singleLine_iff _).mp hsl)]
      rfl
    · have hsl2 : singleLine name = false := by simpa using hsl
      simp only [hsl2, Bool.false_eq_true, if_false, List.cons_append, List.append_assoc,
        List.nil_append]
      rw [replaceChars_cons,
        matchPlaceholder_name_line_break name _ hclose ((not_singleLine_iff _).mp hsl)]
      simp only
      rw [replaceChars_append_of_no_open _ _ hopen, replaceChars_cons_of_ne _ _ (by decide)]


theorem replaceChars_rewritten (seg : Segment) (s : List Char) (hwf : seg.wellFormed = true) :
    replaceChars (seg.rewritten ++ s) = seg.rewritten ++ replaceChars s := by
  cases seg with
  | text chars =>
    simp only [Segment.wellFormed] at hwf
    exact replaceChars_append_of_no_open _ _ ((braceFree_iff _).mp hwf).1
  | placeholder name =>
    simp only [Segment.wellFormed, Bool.and_eq_true, Bool.not_eq_true', List.isEmpty_eq_false] at hwf
    obtain ⟨_, hbf⟩ := hwf
    obtain ⟨hopen, hclose⟩ := (braceFree_iff _).mp hbf
    simp only [Segment.rewritten]
    by_cases hsl : singleLine name = true
    · simp only [hsl, if_true, List.cons_append]
      rw [replaceChars_cons_of_ne _ _ (by decide), replaceChars_append_of_no_open _ _ hopen]
    · have hsl2 : singleLine name = false := by simpa using hsl
      simp only [hsl2, Bool.false_eq_true, if_false, List.cons_append, List.append_assoc,
        List.nil_append]
      rw [replaceChars_cons,
        matchPlaceholder_name_line_break name _ hclose ((not_singleLine_iff _).mp hsl)]
      simp only
      rw [replaceChars_append_of_no_open _ _ hopen, replaceChars_cons_of_ne _ _ (by decide)]

theorem replaceChars_template (segs : List Segment) (s : List Char)
    (hwf : ∀ seg ∈ segs, seg.wellFormed = true) :
    replaceChars (segs.flatMap Segment.source ++ s)
      = segs.flatMap Segment.rewritten ++ replaceChars s := by
  induction segs with
  | nil => simp
  | cons seg rest ih =>
    simp only [List.flatMap_cons, List.append_assoc]
    rw [replaceChars_source seg _ (hwf seg (List.mem_cons_self _ _)),
      ih (fun x hx => hwf x (List.mem_cons_of_mem _ hx))]

theorem replaceChars_rewritten_template (segs : List Segment) (s : List Char)
    (hwf : ∀ seg ∈ segs, seg.wellFormed = true) :
    replaceChars (segs.flatMap Segment.rewritten ++ s)
      = segs.flatMap Segment.rewritten ++ replaceChars s := by
  induction segs with
  | nil => simp
  | cons seg rest ih =>
    simp only [List.flatMap_cons, List.append_assoc]
    rw [replaceChars_rewritten seg _ (hwf seg (List.mem_cons_self _ _)),
      ih (fun x hx => hwf x (List.mem_cons_of_mem _ hx))]

theorem rewritten_eq_express (segs : List Segment)
    (hline : ∀ seg ∈ segs, seg.nameOnOneLine = true) :
    segs.flatMap Segment.rewritten = segs.flatMap Segment.express := by
  induction segs with
  | nil => rfl
  | cons seg rest ih =>
    simp only [List.flatMap_cons]
    rw [ih (fun x hx => hline x (List.mem_cons_of_mem _ hx))]
    have h := hline seg (List.mem_cons_self _ _)
    cases seg with
    | text chars => rfl
    | placeholder name =>
      simp only [Segment.nameOnOneLine] at h
      simp [Segment.rewritten, Segment.express, h]

/-- C2 (amended): for an event path made of brace-free literal text and
placeholders `{name}` whose name is non-empty, brace-free and holds no line
terminator, and a stage option that is absent or brace-free, the path computed
at line 52 is `/` and the stage (only when the stage is a non-empty string)
followed by `/` and the event path with every `{name}` replaced by `:name`. -/
theorem routePath_template (this : Plugin) (httpEvent : HttpEventConfig) (segs : List Segment)
    (hpath : httpEvent.path = String.mk (segs.flatMap Segment.source))
    (hwf : ∀ seg ∈ segs, seg.wellFormed = true)
    (hline : ∀ seg ∈ segs, seg.nameOnOneLine = true)
    (hstage : ∀ stage, this.stage = some stage → braceFree stage.data = true) :
    routePath this httpEvent
      = stagePart this ++ "/" ++ String.mk (segs.flatMap Segment.express) := by
  have hbody : ∀ s : List Char, replaceChars ('/' :: (segs.flatMap Segment.source ++ s))
      = '/' :: (segs.flatMap Segment.express ++ replaceChars s) := by
    intro s
    rw [replaceChars_cons_of_ne _ _ (by decide), replaceChars_template segs s hwf,
      rewritten_eq_express segs hline]
  apply String.ext
  unfold routePath routeEndpoint replacePlaceholders stagePart
  rw [hpath]
  cases hst : this.stage with
  | none =>
    have := hbody []
    simp only [List.append_nil, replaceChars_nil] at this
    simp [String.data_append, this]
  | some stage =>
    by_cases hempty : stage = ""
    · have := hbody []
      simp only [List.append_nil, replaceChars_nil] at this
      simp [hempty, String.data_append, this]
    · have hfree := ((braceFree_iff _).mp (hstage stage hst)).1
      have := hbody []
      simp only [List.append_nil, replaceChars_nil] at this
      simp only [bne_iff_ne, ne_eq, hempty, not_false_eq_true, if_true, String.data_append]
      simp only [List.singleton_append, List.append_assoc, List.cons_append, List.nil_append]
      rw [replaceChars_cons_of_ne _ _ (by decide), replaceChars_append_of_no_open _ _ hfree, this]

/-- Witness for C2: `/{a}/b/{c}` under the stage `dev` is registered with the
two parameters `a` and `c`. -/
theorem routePath_template_witness :
    routePath { stage := some "dev" } { method := "GET", path := "/{a}/b/{c}" }
      = "/dev//:a/b/:c" :=
  routePath_template { stage := some "dev" } { method := "GET", path := "/{a}/b/{c}" }
    [.text ['/'], .placeholder ['a'], .text ['/', 'b', '/'], .placeholder ['c']]
    (by decide) (by decide) (by decide) (by intro stage h; cases h; decide)

/-- Counterexample to C2 as stated: the placeholder name `a\nb` is non-empty and
brace-free, yet `{a\nb}` is registered unchanged, not as `:a\nb`, because `.`
matches no line terminator. -/
theorem routePath_line_break_counterexample :
    (∀ seg ∈ [Segment.placeholder ['a', '\n', 'b']], seg.wellFormed = true) ∧
    routePath {} { method := "GET", path := "\x7ba\nb\x7d" } = "/\x7ba\nb\x7d" ∧
    routePath {} { method := "GET",
                   path := String.mk ([Segment.placeholder ['a', '\n', 'b']].flatMap Segment.source) }
      ≠ stagePart {} ++ "/" ++
          String.mk ([Segment.placeholder ['a', '\n', 'b']].flatMap Segment.express) := by
  decide

theorem capturedFuel_stable (n m : Nat) (s : List Char) (hn : s.length ≤ n) (hm : s.length ≤ m) :
    capturedGroupsFuel n s = capturedGroupsFuel m s := by
  induction n generalizing m s with
  | zero =>
    have : s = [] := List.length_eq_zero.mp (by omega)
    subst this
    cases m <;> simp [capturedGroupsFuel]
  | succ n ih =>
    cases s with
    | nil => cases m <;> simp [capturedGroupsFuel]
    | cons c cs =>
      cases m with
      | zero => simp at hm
      | succ m =>
        simp only [capturedGroupsFuel]
        simp only [List.length_cons] at hn hm
        cases hmatch : matchPlaceholder (c :: cs) with
        | none =>
          simp only
          rw [ih m cs (by omega) (by omega)]
        | some r =>
          obtain ⟨g, rest⟩ := r
          have hl := matchPlaceholder_length _ _ _ hmatch
          simp only [List.length_cons] at hl
          simp only
          rw [ih m rest (by omega) (by omega)]

theorem capturedGroupsFuel_cons (c : Char) (cs : List Char) :
    capturedGroupsFuel (c :: cs).length (c :: cs) =
      match matchPlaceholder (c :: cs) with
      | some (group, rest) => group :: capturedGroupsFuel rest.length rest
      | none => capturedGroupsFuel cs.length cs := by
  simp only [List.length_cons, capturedGroupsFuel]
  cases hmatch : matchPlaceholder (c :: cs) with
  | none => rfl
  | some r =>
    obtain ⟨g, rest⟩ := r
    have hl := matchPlaceholder_length _ _ _ hmatch
    simp only [List.length_cons] at hl
    simp only
    rw [capturedFuel_stable cs.length rest.length rest (by omega) (by omega)]

theorem matchGroupRest_none_any_group (group other s : List Char)
    (h : matchGroupRest group s = none) : matchGroupRest other s = none := by
  induction s generalizing group other with
  | nil => rfl
  | cons d ds ih =>
    unfold matchGroupRest at h ⊢
    by_cases hd : d = '}'
    · simp [hd] at h
    · simp only [hd, if_false] at h ⊢
      by_cases hl : isLineTerminator d = true
      · simp [hl]
      · simp only [hl, if_false] at h ⊢
        exact ih _ _ h

theorem lineTerminator_ne_open (d : Char) (h : isLineTerminator d = true) : d ≠ '{' := by
  intro hd
  subst hd
  exact absurd h (by decide)

theorem matchPlaceholder_open_none (ds group : List Char)
    (h : matchGroupRest group ds = none) : matchPlaceholder ('{' :: ds) = none := by
  cases ds with
  | nil => rfl
  | cons e es =>
    simp only [matchPlaceholder]
    by_cases hl : isLineTerminator e = true
    · simp [hl]
    · simp only [hl, if_false]
      unfold matchGroupRest at h
      by_cases he : e = '}'
      · simp [he] at h
      · simp only [he, if_false, hl] at h
        exact matchGroupRest_none_any_group _ _ _ h

theorem matchGroupRest_none_replaceChars (group other s : List Char)
    (h : matchGroupRest group s = none) : matchGroupRest other (replaceChars s) = none := by
  induction s generalizing group other with
  | nil => rw [replaceChars_nil]; rfl
  | cons d ds ih =>
    have h0 := h
    unfold matchGroupRest at h
    by_cases hd : d = '}'
    · simp [hd] at h
    · simp only [hd, if_false] at h
      by_cases hl : isLineTerminator d = true
      · rw [replaceChars_cons_of_ne _ _ (lineTerminator_ne_open d hl)]
        unfold matchGroupRest
        simp [hd, hl]
      · simp only [hl, if_false] at h
        have hcopy : replaceChars (d :: ds) = d :: replaceChars ds := by
          by_cases hopen : d = '{'
          · subst hopen
            rw [replaceChars_cons, matchPlaceholder_open_none ds _ h]
          · exact replaceChars_cons_of_ne _ _ hopen
        rw [hcopy]
        unfold matchGroupRest
        simp only [hd, if_false, hl]
        exact ih _ _ h

theorem matchPlaceholder_none_replaceChars (cs : List Char)
    (h : matchPlaceholder ('{' :: cs) = none) :
    matchPlaceholder ('{' :: replaceChars cs) = none := by
  cases cs with
  | nil => rw [replaceChars_nil]; rfl
  | cons c rest =>
    simp only [matchPlaceholder] at h
    by_cases hl : isLineTerminator c = true
    · rw [replaceChars_cons_of_ne _ _ (lineTerminator_ne_open c hl)]
      simp [matchPlaceholder, hl]
    · simp only [hl, if_false] at h
      have hcopy : replaceChars (c :: rest) = c :: replaceChars rest := by
        by_cases hopen : c = '{'
        · subst hopen
          rw [replaceChars_cons, matchPlaceholder_open_none rest _ h]
        · exact replaceChars_cons_of_ne _ _ hopen
      rw [hcopy]
      simp only [matchPlaceholder, hl, if_false]
      exact matchGroupRest_none_replaceChars _ _ _ h

theorem replaceChars_idempotent_aux (n : Nat) (s : List Char) (hn : s.length ≤ n)
    (hgroups : ∀ group ∈ capturedGroupsFuel s.length s, '{' ∉ group) :
    replaceChars (replaceChars s) = replaceChars s := by
  induction n generalizing s with
  | zero =>
    have : s = [] := List.length_eq_zero.mp (by omega)
    subst this
    simp [replaceChars_nil]
  | succ n ih =>
    cases s with
    | nil => simp [replaceChars_nil]
    | cons c cs =>
      simp only [List.length_cons] at hn
      rw [capturedGroupsFuel_cons] at hgroups
      rw [replaceChars_cons]
      cases hmatch : matchPlaceholder (c :: cs) with
      | none =>
        rw [hmatch] at hgroups
        simp only at hgroups ⊢
        have hrec := ih cs (by omega) hgroups
        by_cases hopen : c = '{'
        · subst hopen
          rw [replaceChars_cons, matchPlaceholder_none_replaceChars cs hmatch]
          simp only
          rw [hrec]
        · rw [replaceChars_cons_of_ne _ _ hopen, hrec]
      | some r =>
        obtain ⟨g, rest⟩ := r
        rw [hmatch] at hgroups
        simp only at hgroups ⊢
        have hl := matchPlaceholder_length _ _ _ hmatch
        simp only [List.length_cons] at hl
        have hrec := ih rest (by omega)
          (fun group hg => hgroups group (List.mem_cons_of_mem _ hg))
        have hg : ∀ d ∈ g, d ≠ '{' := by
          intro d hd hopen
          subst hopen
          exact hgroups g (List.mem_cons_self _ _) hd
        rw [List.cons_append, replaceChars_cons_of_ne _ _ (by decide),
          replaceChars_append_of_no_open _ _ hg, hrec]

/-- On a path made of brace-free literal text and placeholders with a non-empty
brace-free name the rewrite is idempotent. -/
theorem replacePlaceholders_idempotent_on_templates (segs : List Segment)
    (hwf : ∀ seg ∈ segs, seg.wellFormed = true) :
    replacePlaceholders (replacePlaceholders (String.mk (segs.flatMap Segment.source)))
      = replacePlaceholders (String.mk (segs.flatMap Segment.source)) := by
  have h1 := replaceChars_template segs [] hwf
  have h2 := replaceChars_rewritten_template segs [] hwf
  simp only [List.append_nil, replaceChars_nil] at h1 h2
  simp only [replacePlaceholders, h1, h2]

/-- C6 (amended): the rewrite of line 52 is idempotent on every path in which
no match of `\{(.+?)\}` captures a name that contains `{`. -/
theorem replacePlaceholders_idempotent (p : String)
    (hgroups : ∀ group ∈ capturedGroups p, '{' ∉ group) :
    replacePlaceholders (replacePlaceholders p) = replacePlaceholders p := by
  simp only [replacePlaceholders]
  rw [replaceChars_idempotent_aux p.data.length p.data (Nat.le_refl _) hgroups]

/-- Witness for C6: the rewrite of `/{a}/b/{c}` captures `a` and `c`, and
rewriting `/:a/b/:c` again changes nothing. -/
theorem replacePlaceholders_idempotent_witness :
    capturedGroups "/{a}/b/{c}" = [['a'], ['c']] ∧
    replacePlaceholders "/{a}/b/{c}" = "/:a/b/:c" ∧
    replacePlaceholders (replacePlaceholders "/{a}/b/{c}") = replacePlaceholders "/{a}/b/{c}" :=
  ⟨by decide, by decide, replacePlaceholders_idempotent "/{a}/b/{c}" (by decide)⟩

/-- Counterexample to C6 as stated: `{{a}}` is rewritten to `:{a}`, which is
rewritten to `::a`. The captured name is `{a`. -/
theorem replacePlaceholders_not_idempotent :
    capturedGroups "{{a}}" = [['{', 'a']] ∧
    replacePlaceholders "{{a}}" = ":{a}" ∧
    replacePlaceholders (replacePlaceholders "{{a}}") = "::a" ∧
    replacePlaceholders (replacePlaceholders "{{a}}") ≠ replacePlaceholders "{{a}}" := by
  decide

/-! ## The handler and its callback -/

theorem handlerBase_of_callback (this : Plugin) (funcConf : Nat) (httpEvent : Option HttpEventConfig)
    (funcConfs : List FunctionConfig) (conf : FunctionConfig) (f : Nat) (req : Req)
    (res : List ResCall) (err resp : JSVal)
    (hconf : funcConfs[funcConf]? = some conf)
    (hfunc : conf.handlerFunc = .func f)
    (hcall : this.lambda f (invocationEvent httpEvent req) (this.getContext conf.id)
      = some (err, resp)) :
    _handlerBase this funcConf httpEvent funcConfs req res =
      match handlerCallback (isLambdaProxyIntegration httpEvent) err resp res with
      | .ok res1 =>
        { res := res1
          invoked := [⟨f, invocationEvent httpEvent req, this.getContext conf.id⟩] }
      | .error e =>
        { res := res
          invoked := [⟨f, invocationEvent httpEvent req, this.getContext conf.id⟩]
          thrown := some e } := by
  simp only [_handlerBase, hconf, hfunc, hcall]

/-- C3: in proxy mode, when the handler function calls back with a falsy error
(`null`) and a response object, the handler built by `_handlerBase` answers
with the status `resp.statusCode` when that property is present and truthy and
with 200 otherwise, and with the body `resp.body`. -/
theorem handlerBase_proxy_success (this : Plugin) (funcConf : Nat) (httpEvent : HttpEventConfig)
    (funcConfs : List FunctionConfig) (conf : FunctionConfig) (f : Nat) (req : Req)
    (res : List ResCall) (err : JSVal) (props : List (String × JSVal))
    (hconf : funcConfs[funcConf]? = some conf)
    (hfunc : conf.handlerFunc = .func f)
    (hproxy : httpEvent.integration ≠ some "lambda")
    (herr : err.truthy = false)
    (hcall : this.lambda f (invocationEvent (some httpEvent) req) (this.getContext conf.id)
      = some (err, .obj props)) :
    _handlerBase this funcConf (some httpEvent) funcConfs req res =
      { res := res ++
          [ .status
              (match props.lookup "statusCode" with
               | some code => if code.truthy then code else .num 200
               | none => .num 200),
            .send ((props.lookup "body").getD .undefined) ]
        invoked := [⟨f, invocationEvent (some httpEvent) req, this.getContext conf.id⟩]
        thrown := none } := by
  rw [handlerBase_of_callback this funcConf (some httpEvent) funcConfs conf f req res err
    (.obj props) hconf hfunc hcall]
  have hmode : isLambdaProxyIntegration (some httpEvent) = true := by
    simp [isLambdaProxyIntegration, hproxy]
  cases hcode : props.lookup "statusCode" with
  | none =>
    have hundef : JSVal.undefined.truthy = false := rfl
    simp [handlerCallback, herr, hmode, JSVal.getProp, hcode, JSVal.or, hundef, bind,
      Except.bind]
  | some code =>
    by_cases ht : code.truthy = true
    · simp [handlerCallback, herr, hmode, JSVal.getProp, hcode, JSVal.or, ht, bind, Except.bind]
    · simp [handlerCallback, herr, hmode, JSVal.getProp, hcode, JSVal.or, ht, bind, Except.bind]

/-- Witness for C3: `{statusCode: 201, body: "X"}` gives 201 and `X`; `{body:
"X"}` gives 200 and `X`. -/
theorem handlerBase_proxy_success_witness :
    _handlerBase { lambda := fun _ _ _ => some (.null, .obj [("statusCode", .num 201),
          ("body", .str "X")]) } 0 (some { method := "GET", path := "x" })
        [{ id := "f", events := [], moduleName := "h", handlerFunc := .func 7, handler := "h.f" }]
        { method := "GET" } []
      = { res := [.status (.num 201), .send (.str "X")]
          invoked := [⟨7, invocationEvent (some { method := "GET", path := "x" })
            { method := "GET" }, .undefined⟩]
          thrown := none } ∧
    _handlerBase { lambda := fun _ _ _ => some (.null, .obj [("body", .str "X")]) } 0
        (some { method := "GET", path := "x" })
        [{ id := "f", events := [], moduleName := "h", handlerFunc := .func 7, handler := "h.f" }]
        { method := "GET" } []
      = { res := [.status (.num 200), .send (.str "X")]
          invoked := [⟨7, invocationEvent (some { method := "GET", path := "x" })
            { method := "GET" }, .undefined⟩]
          thrown := none } :=
  ⟨handlerBase_proxy_success
      { lambda := fun _ _ _ => some (.null, .obj [("statusCode", .num 201), ("body", .str "X")]) }
      0 { method := "GET", path := "x" }
      [{ id := "f", events := [], moduleName := "h", handlerFunc := .func 7, handler := "h.f" }]
      { id := "f", events := [], moduleName := "h", handlerFunc := .func 7, handler := "h.f" }
      7 { method := "GET" } [] .null [("statusCode", .num 201), ("body", .str "X")]
      rfl rfl (by decide) rfl rfl,
   handlerBase_proxy_success
      { lambda := fun _ _ _ => some (.null, .obj [("body", .str "X")]) }
      0 { method := "GET", path := "x" }
      [{ id := "f", events := [], moduleName := "h", handlerFunc := .func 7, handler := "h.f" }]
      { id := "f", events := [], moduleName := "h", handlerFunc := .func 7, handler := "h.f" }
      7 { method := "GET" } [] .null [("body", .str "X")]
      rfl rfl (by decide) rfl rfl⟩

/-- C4: in lambda (non-proxy) mode, when the handler function calls back with a
falsy error (`null`) and any value `resp`, the handler built by `_handlerBase`
answers with status 200 and the whole of `resp` as the body. -/
theorem handlerBase_lambda_success (this : Plugin) (funcConf : Nat) (httpEvent : HttpEventConfig)
    (funcConfs : List FunctionConfig) (conf : FunctionConfig) (f : Nat) (req : Req)
    (res : List ResCall) (err resp : JSVal)
    (hconf : funcConfs[funcConf]? = some conf)
    (hfunc : conf.handlerFunc = .func f)
    (hlambda : httpEvent.integration = some "lambda")
    (herr : err.truthy = false)
    (hcall : this.lambda f (invocationEvent (some httpEvent) req) (this.getContext conf.id)
      = some (err, resp)) :
    _handlerBase this funcConf (some httpEvent) funcConfs req res =
      { res := res ++ [.status (.num 200), .send resp]
        invoked := [⟨f, invocationEvent (some httpEvent) req, this.getContext conf.id⟩]
        thrown := none } := by
  rw [handlerBase_of_callback this funcConf (some httpEvent) funcConfs conf f req res err
    resp hconf hfunc hcall]
  have hmode : isLambdaProxyIntegration (some httpEvent) = false := by
    simp [isLambdaProxyIntegration, hlambda]
  simp [handlerCallback, herr, hmode]

/-- Witness for C4: `{foo: 1}` gives 200 with the body `{foo: 1}`, and a
`statusCode` in the response is not looked at. -/
theorem handlerBase_lambda_success_witness :
    _handlerBase { lambda := fun _ _ _ => some (.null, .obj [("foo", .num 1)]) } 0
        (some { method := "GET", path := "x", integration := some "lambda" })
        [{ id := "f", events := [], moduleName := "h", handlerFunc := .func 7, handler := "h.f" }]
        { method := "GET" } []
      = { res := [.status (.num 200), .send (.obj [("foo", .num 1)])]
          invoked := [⟨7, invocationEvent
            (some { method := "GET", path := "x", integration := some "lambda" })
            { method := "GET" }, .undefined⟩]
          thrown := none } :=
  handlerBase_lambda_success { lambda := fun _ _ _ => some (.null, .obj [("foo", .num 1)]) } 0
    { method := "GET", path := "x", integration := some "lambda" }
    [{ id := "f", events := [], moduleName := "h", handlerFunc := .func 7, handler := "h.f" }]
    { id := "f", events := [], moduleName := "h", handlerFunc := .func 7, handler := "h.f" }
    7 { method := "GET" } [] .null (.obj [("foo", .num 1)]) rfl rfl rfl rfl rfl

/-- C5: in either integration mode, when the handler function calls back with a
truthy error, the handler built by `_handlerBase` answers with status 500 and
the error as the body, whatever the response value is; the response value is
not read and nothing else is sent. -/
theorem handlerBase_error (this : Plugin) (funcConf : Nat) (httpEvent : Option HttpEventConfig)
    (funcConfs : List FunctionConfig) (conf : FunctionConfig) (f : Nat) (req : Req)
    (res : List ResCall) (err resp : JSVal)
    (hconf : funcConfs[funcConf]? = some conf)
    (hfunc : conf.handlerFunc = .func f)
    (herr : err.truthy = true)
    (hcall : this.lambda f (invocationEvent httpEvent req) (this.getContext conf.id)
      = some (err, resp)) :
    _handlerBase this funcConf httpEvent funcConfs req res =
      { res := res ++ [.status (.num 500), .send err]
        invoked := [⟨f, invocationEvent httpEvent req, this.getContext conf.id⟩]
        thrown := none } := by
  rw [handlerBase_of_callback this funcConf httpEvent funcConfs conf f req res err
    resp hconf hfunc hcall]
  simp [handlerCallback, herr]

/-- Witness for C5: the error `boom` with the response `null`, in proxy mode,
gives 500 with `boom` as the body. -/
theorem handlerBase_error_witness :
    _handlerBase { lambda := fun _ _ _ => some (.str "boom", .null) } 0
        (some { method := "GET", path := "x" })
        [{ id := "f", events := [], moduleName := "h", handlerFunc := .func 7, handler := "h.f" }]
        { method := "GET" } []
      = { res := [.status (.num 500), .send (.str "boom")]
          invoked := [⟨7, invocationEvent (some { method := "GET", path := "x" })
            { method := "GET" }, .undefined⟩]
          thrown := none } :=
  handlerBase_error { lambda := fun _ _ _ => some (.str "boom", .null) } 0
    (some { method := "GET", path := "x" })
    [{ id := "f", events := [], moduleName := "h", handlerFunc := .func 7, handler := "h.f" }]
    { id := "f", events := [], moduleName := "h", handlerFunc := .func 7, handler := "h.f" }
    7 { method := "GET" } [] (.str "boom") .null rfl rfl rfl rfl

/-! ## The watch callback -/

theorem indexOf_nonneg_or (loadedModules : List String) (moduleName : String) :
    indexOf loadedModules moduleName = -1 ∨ 0 ≤ indexOf loadedModules moduleName := by
  induction loadedModules with
  | nil => left; rfl
  | cons m rest ih =>
    unfold indexOf
    by_cases h : m = moduleName
    · simp [h]
    · simp only [h, if_false]
      rcases ih with ih | ih
      · left; simp [ih]
      · right
        have : ¬ indexOf rest moduleName < 0 := by omega
        simp only [this, if_false]
        omega

theorem indexOf_neg_iff (loadedModules : List String) (moduleName : String) :
    indexOf loadedModules moduleName < 0 ↔ moduleName ∉ loadedModules := by
  induction loadedModules with
  | nil => simp [indexOf]
  | cons m rest ih =>
    unfold indexOf
    by_cases h : m = moduleName
    · simp [h]
    · simp only [h, if_false, List.mem_cons]
      have hne : ¬ moduleName = m := fun e => h e.symm
      by_cases hneg : indexOf rest moduleName < 0
      · simp only [hneg, if_true]
        have := ih.mp hneg
        simp [hne, this]
      · simp only [hneg, if_false]
        have hmem : ¬ moduleName ∉ rest := fun e => hneg (ih.mpr e)
        have hnn : 0 ≤ indexOf rest moduleName := by omega
        constructor
        · intro hlt; omega
        · intro hc
          exact absurd (fun e => hc (Or.inr e)) hmem

theorem not_mem_take_map_iff (confs : List FunctionConfig) (i : Nat) (moduleName : String) :
    moduleName ∉ (confs.take i).map (fun c => c.moduleName) ↔
      ∀ j other, j < i → confs[j]? = some other → other.moduleName ≠ moduleName := by
  constructor
  · intro h j other hj hother heq
    apply h
    rw [List.mem_map]
    refine ⟨other, ?_, heq⟩
    rw [List.mem_iff_getElem?]
    exact ⟨j, by rw [List.getElem?_take_of_lt hj]; exact hother⟩
  · intro h hmem
    rw [List.mem_map] at hmem
    obtain ⟨other, hother, heq⟩ := hmem
    rw [List.mem_iff_getElem?] at hother
    obtain ⟨j, hj⟩ := hother
    have hlt : j < i := by
      by_contra hge
      rw [List.getElem?_take_eq_none (by omega)] at hj
      exact absurd hj (by simp)
    rw [List.getElem?_take_of_lt hlt] at hj
    exact h j other hlt hj heq

theorem watch_foldl_spec (this : Plugin) (stats : JSVal) (calls0 : List LoadCall)
    (confs : List FunctionConfig) :
    (confs.foldl (watchStep this stats)
        { loadedModules := [], loadCalls := calls0, funcConfs := [] }).loadedModules
      = confs.map (fun c => c.moduleName) ∧
    (confs.foldl (watchStep this stats)
        { loadedModules := [], loadCalls := calls0, funcConfs := [] }).funcConfs.length
      = confs.length ∧
    (confs.foldl (watchStep this stats)
        { loadedModules := [], loadCalls := calls0, funcConfs := [] }).loadCalls.length
      = calls0.length + confs.length ∧
    (confs.foldl (watchStep this stats)
        { loadedModules := [], loadCalls := calls0, funcConfs := [] }).loadCalls.take calls0.length
      = calls0 ∧
    ∀ i conf, confs[i]? = some conf →
      (confs.foldl (watchStep this stats)
          { loadedModules := [], loadCalls := calls0, funcConfs := [] }).loadCalls[calls0.length + i]?
        = some { stats := stats, id := conf.id
                 flag := decide (indexOf ((confs.take i).map (fun c => c.moduleName))
                   conf.moduleName < 0) } ∧
      (confs.foldl (watchStep this stats)
          { loadedModules := [], loadCalls := calls0, funcConfs := [] }).funcConfs[i]?
        = some { conf with
                 handlerFunc := this.loadHandler
                   ((confs.foldl (watchStep this stats)
                      { loadedModules := [], loadCalls := calls0, funcConfs := [] }).loadCalls.take
                      (calls0.length + i))
                   stats conf.id
                   (decide (indexOf ((confs.take i).map (fun c => c.moduleName))
                     conf.moduleName < 0)) } := by
  induction confs using List.reverseRecOn with
  | nil => simp
  | append_singleton cs c ih =>
    obtain ⟨hmods, hlen, hcalls, htake, hidx⟩ := ih
    rw [List.foldl_append]
    simp only [List.foldl_cons, List.foldl_nil]
    generalize hloop : cs.foldl (watchStep this stats)
      { loadedModules := [], loadCalls := calls0, funcConfs := [] } = loop at *
    refine ⟨?_, ?_, ?_, ?_, ?_⟩
    · simp [watchStep, hmods]
    · simp [watchStep, hlen]
    · simp [watchStep, hcalls]; omega
    · simp only [watchStep]
      rw [List.take_append_of_le_length (by omega)]
      exact htake
    · intro i conf hi
      by_cases hlt : i < cs.length
      · rw [List.getElem?_append_left hlt] at hi
        obtain ⟨h1, h2⟩ := hidx i conf hi
        have htk : (cs ++ [c]).take i = cs.take i := List.take_append_of_le_length (by omega)
        simp only [watchStep]
        rw [htk, List.getElem?_append_left (by omega), List.getElem?_append_left (by omega),
          List.take_append_of_le_length (by omega)]
        exact ⟨h1, h2⟩
      · have hi2 : i = cs.length := by
          by_contra hne
          have : (cs ++ [c])[i]? = none := by
            apply List.getElem?_eq_none
            simp; omega
          rw [this] at hi
          exact absurd hi (by simp)
        subst hi2
        have hc : conf = c := by
          simp at hi
          exact hi.symm
        subst hc
        have htk : (cs ++ [conf]).take cs.length = cs := by simp
        simp only [watchStep]
        rw [htk, ← hcalls, ← hmods]
        constructor
        · simp
        · rw [List.take_append_of_le_length (by omega), List.take_length]
          have : loop.funcConfs.length = cs.length := hlen
          rw [← this]
          simp

theorem watchCallback_ok (this : Plugin) (err stats : JSVal) (state : ServeState)
    (herr : err.truthy = false) :
    watchCallback this err stats state =
      .ok { funcConfs := (state.funcConfs.foldl (watchStep this stats)
              { loadedModules := [], loadCalls := state.loadCalls, funcConfs := [] }).funcConfs
            loadCalls := (state.funcConfs.foldl (watchStep this stats)
              { loadedModules := [], loadCalls := state.loadCalls, funcConfs := [] }).loadCalls } := by
  simp [watchCallback, herr]

theorem watchCallback_ok_inv (this : Plugin) (err stats : JSVal) (state state1 : ServeState)
    (h : watchCallback this err stats state = .ok state1) :
    state1 =
      { funcConfs := (state.funcConfs.foldl (watchStep this stats)
          { loadedModules := [], loadCalls := state.loadCalls, funcConfs := [] }).funcConfs
        loadCalls := (state.funcConfs.foldl (watchStep this stats)
          { loadedModules := [], loadCalls := state.loadCalls, funcConfs := [] }).loadCalls } := by
  unfold watchCallback at h
  split at h
  · cases h
  · simp only [Except.ok.injEq] at h
    exact h.symm

/-- C7: on a successful build notification the watch callback visits every
FunctionConfig once, in order: the `i`-th new call of `loadHandler` is
`loadHandler(stats, id, flag)` for the `i`-th FunctionConfig, its result is
stored as the `handlerFunc` of that FunctionConfig, and `flag` is true if and
only if no FunctionConfig earlier in the list has the same `moduleName`. The
flags depend on the list alone: the seen modules start empty. -/
theorem watchCallback_loads_each (this : Plugin) (err stats : JSVal) (state : ServeState)
    (herr : err.truthy = false) :
    ∃ state1, watchCallback this err stats state = .ok state1 ∧
      state1.funcConfs.length = state.funcConfs.length ∧
      state1.loadCalls.length = state.loadCalls.length + state.funcConfs.length ∧
      state1.loadCalls.take state.loadCalls.length = state.loadCalls ∧
      ∀ i conf, state.funcConfs[i]? = some conf →
        ∃ flag : Bool,
          (flag = true ↔ ∀ j other, j < i → state.funcConfs[j]? = some other →
            other.moduleName ≠ conf.moduleName) ∧
          state1.loadCalls[state.loadCalls.length + i]?
            = some { stats := stats, id := conf.id, flag := flag } ∧
          state1.funcConfs[i]?
            = some { conf with
                     handlerFunc := this.loadHandler
                       (state1.loadCalls.take (state.loadCalls.length + i)) stats conf.id flag } := by
  obtain ⟨_, hlen, hcalls, htake, hidx⟩ :=
    watch_foldl_spec this stats state.loadCalls state.funcConfs
  refine ⟨_, watchCallback_ok this err stats state herr, hlen, hcalls, htake, ?_⟩
  intro i conf hi
  refine ⟨decide (indexOf ((state.funcConfs.take i).map (fun c => c.moduleName))
    conf.moduleName < 0), ?_, (hidx i conf hi).1, (hidx i conf hi).2⟩
  rw [decide_eq_true_iff, indexOf_neg_iff, not_mem_take_map_iff]

/-- Witness for C7: of three functions using the modules `a`, `a`, `b`, the
first and the third are loaded with the flag set. -/
theorem watchCallback_loads_each_witness :
    (∃ state1, watchCallback {} .null (.str "stats")
        { funcConfs :=
            [ { id := "f1", events := [], moduleName := "a", handlerFunc := .null, handler := "a.x" },
              { id := "f2", events := [], moduleName := "a", handlerFunc := .null, handler := "a.y" },
              { id := "f3", events := [], moduleName := "b", handlerFunc := .null, handler := "b.z" } ] }
        = .ok state1 ∧
      state1.loadCalls.map (fun c => (c.id, c.flag))
        = [("f1", true), ("f2", false), ("f3", true)]) :=
  (watchCallback_loads_each {} .null (.str "stats")
      { funcConfs :=
          [ { id := "f1", events := [], moduleName := "a", handlerFunc := .null, handler := "a.x" },
            { id := "f2", events := [], moduleName := "a", handlerFunc := .null, handler := "a.y" },
            { id := "f3", events := [], moduleName := "b", handlerFunc := .null, handler := "b.z" } ] }
      rfl).elim
    (fun state1 h => ⟨state1, h.1, by
      have := watchCallback_ok_inv _ _ _ _ _ h.1
      subst this
      decide⟩)

/-- C8: a handler built by `_handlerBase` reads the handler function when it
runs. Once a rebuild has stored the function `g` in the FunctionConfig, the next
invocation of the handler calls `g`, once, with the event built from the
request and the context of the FunctionConfig id, and calls no other function,
whatever function the FunctionConfig held before. -/
theorem handlerBase_calls_current_function (this : Plugin) (funcConf : Nat)
    (httpEvent : Option HttpEventConfig) (err stats : JSVal) (state state1 : ServeState)
    (conf conf1 : FunctionConfig) (g : Nat) (req : Req) (res : List ResCall)
    (hbefore : state.funcConfs[funcConf]? = some conf)
    (hrebuild : watchCallback this err stats state = .ok state1)
    (hafter : state1.funcConfs[funcConf]? = some conf1)
    (hnew : conf1.handlerFunc = .func g) :
    conf1.id = conf.id ∧
    (_handlerBase this funcConf httpEvent state1.funcConfs req res).invoked
      = [⟨g, invocationEvent httpEvent req, this.getContext conf.id⟩] ∧
    ∀ old, old ≠ g →
      ∀ call ∈ (_handlerBase this funcConf httpEvent state1.funcConfs req res).invoked,
        call.func ≠ old := by
  have hstate := watchCallback_ok_inv this err stats state state1 hrebuild
  obtain ⟨_, _, _, _, hidx⟩ := watch_foldl_spec this stats state.loadCalls state.funcConfs
  have h2 := (hidx funcConf conf hbefore).2
  rw [hstate] at hafter
  simp only at hafter
  rw [h2] at hafter
  have hid : conf1.id = conf.id := by
    simp only [Option.some.injEq] at hafter
    rw [← hafter]
  have hafter1 : state1.funcConfs[funcConf]? = some conf1 := by
    rw [hstate]
    simp only
    rw [h2, hafter]
  have hinv : (_handlerBase this funcConf httpEvent state1.funcConfs req res).invoked
      = [⟨g, invocationEvent httpEvent req, this.getContext conf.id⟩] := by
    simp only [_handlerBase, hafter1, hnew, hid]
    cases this.lambda g (invocationEvent httpEvent req) (this.getContext conf.id) with
    | none => rfl
    | some r =>
      obtain ⟨e, resp⟩ := r
      simp only
      cases handlerCallback (isLambdaProxyIntegration httpEvent) e resp res <;> rfl
  refine ⟨hid, hinv, ?_⟩
  intro old hold call hcall
  rw [hinv] at hcall
  simp only [List.mem_singleton] at hcall
  rw [hcall]
  exact fun h => hold h.symm

/-- Witness for C8: a FunctionConfig holding the function 1 is rebuilt with the
function 2; the handler then calls the function 2. -/
theorem handlerBase_calls_current_function_witness :
    (_handlerBase { loadHandler := fun _ _ _ _ => .func 2 } 0 none
        [{ id := "f", events := [], moduleName := "a", handlerFunc := .func 2, handler := "a.x" }]
        { method := "GET" } []).invoked
      = [⟨2, invocationEvent none { method := "GET" }, .undefined⟩] :=
  (handlerBase_calls_current_function { loadHandler := fun _ _ _ _ => .func 2 } 0 none .null .null
    { funcConfs :=
        [{ id := "f", events := [], moduleName := "a", handlerFunc := .func 1, handler := "a.x" }] }
    { funcConfs :=
        [{ id := "f", events := [], moduleName := "a", handlerFunc := .func 2, handler := "a.x" }]
      loadCalls := [{ stats := .null, id := "f", flag := true }] }
    { id := "f", events := [], moduleName := "a", handlerFunc := .func 1, handler := "a.x" }
    { id := "f", events := [], moduleName := "a", handlerFunc := .func 2, handler := "a.x" }
    2 { method := "GET" } [] rfl rfl rfl rfl).2.1

/-! ## The CORS wrapper -/

/-- C9: the handler returned by `_handlerAddCors` for a CORS policy first sets
Access-Control-Allow-Origin, -Headers and -Methods to the comma-joined lists of
the policy, a missing list replaced by its default, and sets
Access-Control-Allow-Credentials to `true` exactly when the policy's flag is
true; then it runs the base handler. -/
theorem handlerAddCors_sets_headers (handler : Handler) (cors : CorsPolicy)
    (funcConfs : List FunctionConfig) (req : Req) (res : List ResCall) :
    (_handlerAddCors handler (some cors)).1 funcConfs req res
      = handler funcConfs req (res ++ corsHeaders cors) ∧
    (ResCall.header "Access-Control-Allow-Credentials" (.bool true) ∈ corsHeaders cors
      ↔ cors.allowCredentials = some true) := by
  have hheaders : ",".intercalate
      ["Authorization", "Content-Type", "x-amz-date", "x-amz-security-token"]
      = "Authorization,Content-Type,x-amz-date,x-amz-security-token" := by decide
  have hmethods : ",".intercalate ["GET", "PUT", "HEAD", "PATCH", "POST", "DELETE", "OPTIONS"]
      = "GET,PUT,HEAD,PATCH,POST,DELETE,OPTIONS" := by decide
  have hone : ∀ s : String, ",".intercalate [s] = s := by
    intro s
    simp [String.intercalate, String.intercalate.go]
  constructor
  · rcases cors with ⟨creds, origins, headers, methods⟩
    have hh : ",".intercalate (headers.getD
        ["Authorization,Content-Type,x-amz-date,x-amz-security-token"])
        = ",".intercalate (headers.getD
            ["Authorization", "Content-Type", "x-amz-date", "x-amz-security-token"]) := by
      cases headers with
      | none => simp only [Option.getD_none, hone, hheaders]
      | some l => rfl
    have hm : ",".intercalate (methods.getD ["GET,PUT,HEAD,PATCH,POST,DELETE,OPTIONS"])
        = ",".intercalate (methods.getD
            ["GET", "PUT", "HEAD", "PATCH", "POST", "DELETE", "OPTIONS"]) := by
      cases methods with
      | none => simp only [Option.getD_none, hone, hmethods]
      | some l => rfl
    simp only [_handlerAddCors, Option.getD_some, corsHeaders, hh, hm]
    rcases creds with _ | _ | _ <;> simp
  · simp only [corsHeaders]
    by_cases hc : cors.allowCredentials = some true
    · simp [hc]
    · simp [hc]

/-! ## The body parser -/

theorem regexTestJson_iff (s : List Char) :
    regexTestJson s = true ↔ ['j', 's', 'o', 'n'] <:+: s := by
  induction s with
  | nil =>
    simp only [regexTestJson, Bool.false_eq_true, false_iff]
    intro h
    have := List.eq_nil_of_infix_nil h
    exact absurd this (by simp)
  | cons c cs ih =>
    rw [regexTestJson, Bool.or_eq_true, ih, List.infix_cons_iff, List.isPrefixOf_iff_prefix]

theorem registerEvent_inv (this : Plugin) (funcConf : Nat) (httpEvent : HttpEventConfig)
    (app : App) (r : App × HttpEventConfig)
    (h : registerEvent this funcConf httpEvent app = .ok r) :
    ∃ wrapped,
      wrapWithCors (_handlerBase this funcConf (some httpEvent)) httpEvent.cors = .ok wrapped ∧
      (this.appMember (toLowerCase httpEvent.method)).callError = none ∧
      r = ({ app with
              routes := app.routes ++
                [{ method := "options", path := replacePlaceholders (routeEndpoint this httpEvent),
                   handler := wrapped.2.1 }] ++
                [{ method := toLowerCase httpEvent.method,
                   path := replacePlaceholders (routeEndpoint this httpEvent),
                   handler := wrapped.1 }]
              consoleLog := app.consoleLog ++
                ["  " ++ toUpperCase (toLowerCase httpEvent.method) ++ " - http://localhost:"
                  ++ toString (_getPort this) ++ routeEndpoint this httpEvent] },
           { httpEvent with cors := wrapped.2.2 }) := by
  unfold registerEvent at h
  simp only at h
  cases hw : wrapWithCors (_handlerBase this funcConf (some httpEvent)) httpEvent.cors with
  | error e => rw [hw] at h; cases h
  | ok wrapped =>
    rw [hw] at h
    simp only at h
    cases hm : (this.appMember (toLowerCase httpEvent.method)).callError with
    | some e => rw [hm] at h; cases h
    | none =>
      rw [hm] at h
      simp only [Except.ok.injEq] at h
      exact ⟨wrapped, rfl, rfl, h.symm⟩

theorem registerEvent_bodyParser (this : Plugin) (funcConf : Nat) (httpEvent : HttpEventConfig)
    (app : App) (r : App × HttpEventConfig) (h : registerEvent this funcConf httpEvent app = .ok r) :
    r.1.bodyParserType = app.bodyParserType ∧ r.1.bodyParserLimit = app.bodyParserLimit := by
  obtain ⟨wrapped, _, _, hr⟩ := registerEvent_inv this funcConf httpEvent app r h
  rw [hr]
  exact ⟨rfl, rfl⟩

theorem registerEvents_bodyParser (this : Plugin) (funcConf : Nat) (events : List HttpEventConfig)
    (app : App) (r : App × List HttpEventConfig)
    (h : registerEvents this funcConf events app = .ok r) :
    r.1.bodyParserType = app.bodyParserType ∧ r.1.bodyParserLimit = app.bodyParserLimit := by
  induction events generalizing app r with
  | nil =>
    simp only [registerEvents, Except.ok.injEq] at h
    rw [← h]
    exact ⟨rfl, rfl⟩
  | cons ev rest ih =>
    simp only [registerEvents, bind, Except.bind] at h
    cases h1 : registerEvent this funcConf ev app with
    | error e => rw [h1] at h; cases h
    | ok r1 =>
      rw [h1] at h
      simp only at h
      cases h2 : registerEvents this funcConf rest r1.1 with
      | error e => rw [h2] at h; cases h
      | ok r2 =>
        rw [h2] at h
        simp only [Except.ok.injEq] at h
        rw [← h]
        have a := registerEvent_bodyParser this funcConf ev app r1 h1
        have b := ih r1.1 r2 h2
        exact ⟨b.1.trans a.1, b.2.trans a.2⟩

theorem registerFuncConfs_bodyParser (this : Plugin) (i : Nat) (funcConfs : List FunctionConfig)
    (app : App) (r : App × List FunctionConfig)
    (h : registerFuncConfs this i funcConfs app = .ok r) :
    r.1.bodyParserType = app.bodyParserType ∧ r.1.bodyParserLimit = app.bodyParserLimit := by
  induction funcConfs generalizing i app r with
  | nil =>
    simp only [registerFuncConfs, Except.ok.injEq] at h
    rw [← h]
    exact ⟨rfl, rfl⟩
  | cons conf rest ih =>
    simp only [registerFuncConfs, bind, Except.bind] at h
    cases h1 : registerEvents this i conf.events app with
    | error e => rw [h1] at h; cases h
    | ok r1 =>
      rw [h1] at h
      simp only at h
      cases h2 : registerFuncConfs this (i + 1) rest r1.1 with
      | error e => rw [h2] at h; cases h
      | ok r2 =>
        rw [h2] at h
        simp only [Except.ok.injEq] at h
        rw [← h]
        have a := registerEvents_bodyParser this i conf.events app r1 h1
        have b := ih (i + 1) r1.1 r2 h2
        exact ⟨b.1.trans a.1, b.2.trans a.2⟩

/-- C10 (amended): the application built by `_newExpressApp` has the request
body parsed as JSON if and only if the request has a Content-Type header whose
value contains `json` in lower case; a request without a Content-Type header is
not parsed. -/
theorem newExpressApp_parses_json_content_type (this : Plugin) (funcConfs : List FunctionConfig)
    (r : App × List FunctionConfig) (req : Req)
    (h : _newExpressApp this funcConfs = .ok r) :
    (r.1.bodyParserType req = true ↔ contentTypeHasJson req) ∧
    (req.headers.lookup "content-type" = none → r.1.bodyParserType req = false) := by
  have hb := (registerFuncConfs_bodyParser this 0 funcConfs _ r h).1
  simp only at hb
  rw [hb]
  constructor
  · unfold bodyParserType contentTypeHasJson
    cases hl : req.headers.lookup "content-type" with
    | none =>
      have : regexTestJson "undefined".data = false := by decide
      simp [this]
    | some v => simp [regexTestJson_iff]
  · intro hnone
    unfold bodyParserType
    rw [hnone]
    decide

/-- Witness for C10: with one route registered, `application/json` is parsed
and `text/plain` is not. -/
theorem newExpressApp_parses_json_content_type_witness :
    ∃ r, _newExpressApp {}
        [{ id := "f", events := [{ method := "POST", path := "x" }], moduleName := "h",
           handlerFunc := .null, handler := "h.f" }] = .ok r ∧
      r.1.bodyParserType { method := "POST", headers := [("content-type", "application/json")] }
        = true ∧
      r.1.bodyParserType { method := "POST", headers := [("content-type", "text/plain")] }
        = false ∧
      (r.1.bodyParserType { method := "POST", headers := [("content-type", "text/plain")] }
        = true ↔ contentTypeHasJson
          { method := "POST", headers := [("content-type", "text/plain")] }) :=
  ⟨_, rfl, by decide, by decide,
    (newExpressApp_parses_json_content_type {}
      [{ id := "f", events := [{ method := "POST", path := "x" }], moduleName := "h",
         handlerFunc := .null, handler := "h.f" }] _
      { method := "POST", headers := [("content-type", "text/plain")] } rfl).1⟩

/-- Counterexample to C10 as stated: the Content-Type `application/JSON`
contains `json` when case is ignored, and the application built by
`_newExpressApp` does not have the body parsed. -/
theorem bodyParserType_is_case_sensitive :
    ∃ r, _newExpressApp {} [] = .ok r ∧
      contentTypeHasJsonAnyCase
        { method := "POST", headers := [("content-type", "application/JSON")] } ∧
      r.1.bodyParserType { method := "POST", headers := [("content-type", "application/JSON")] }
        = false ∧
      ¬ (r.1.bodyParserType
            { method := "POST", headers := [("content-type", "application/JSON")] } = true
          ↔ contentTypeHasJsonAnyCase
            { method := "POST", headers := [("content-type", "application/JSON")] }) :=
  ⟨_, rfl, ⟨"application/JSON", rfl, by decide⟩, by decide,
    fun h => absurd (h.mpr ⟨"application/JSON", rfl, by decide⟩) (by decide)⟩

/-! ## Route registration -/

theorem corsHeaders_resolved (cors : CorsPolicy) :
    corsHeaders (resolvedCors cors) = corsHeaders cors := by
  have hheaders : ",".intercalate
      ["Authorization", "Content-Type", "x-amz-date", "x-amz-security-token"]
      = "Authorization,Content-Type,x-amz-date,x-amz-security-token" := by decide
  have hmethods : ",".intercalate ["GET", "PUT", "HEAD", "PATCH", "POST", "DELETE", "OPTIONS"]
      = "GET,PUT,HEAD,PATCH,POST,DELETE,OPTIONS" := by decide
  have hone : ∀ s : String, ",".intercalate [s] = s := by
    intro s
    simp [String.intercalate, String.intercalate.go]
  rcases cors with ⟨creds, origins, headers, methods⟩
  have hh : ",".intercalate (headers.getD
      ["Authorization,Content-Type,x-amz-date,x-amz-security-token"])
      = ",".intercalate (headers.getD
          ["Authorization", "Content-Type", "x-amz-date", "x-amz-security-token"]) := by
    cases headers with
    | none => simp only [Option.getD_none, hone, hheaders]
    | some l => rfl
  have hm : ",".intercalate (methods.getD ["GET,PUT,HEAD,PATCH,POST,DELETE,OPTIONS"])
      = ",".intercalate (methods.getD
          ["GET", "PUT", "HEAD", "PATCH", "POST", "DELETE", "OPTIONS"]) := by
    cases methods with
    | none => simp only [Option.getD_none, hone, hmethods]
    | some l => rfl
  simp only [corsHeaders, resolvedCors, Option.getD_some, hh, hm]
  rcases creds with _ | _ | _ <;> simp

theorem handlerAddCors_handler (handler : Handler) (cors : CorsPolicy) :
    (_handlerAddCors handler (some cors)).1
      = fun funcConfs req res => handler funcConfs req (res ++ corsHeaders cors) := by
  funext funcConfs req res
  have hheaders : ",".intercalate
      ["Authorization", "Content-Type", "x-amz-date", "x-amz-security-token"]
      = "Authorization,Content-Type,x-amz-date,x-amz-security-token" := by decide
  have hmethods : ",".intercalate ["GET", "PUT", "HEAD", "PATCH", "POST", "DELETE", "OPTIONS"]
      = "GET,PUT,HEAD,PATCH,POST,DELETE,OPTIONS" := by decide
  have hone : ∀ s : String, ",".intercalate [s] = s := by
    intro s
    simp [String.intercalate, String.intercalate.go]
  rcases cors with ⟨creds, origins, headers, methods⟩
  have hh : ",".intercalate (headers.getD
      ["Authorization,Content-Type,x-amz-date,x-amz-security-token"])
      = ",".intercalate (headers.getD
          ["Authorization", "Content-Type", "x-amz-date", "x-amz-security-token"]) := by
    cases headers with
    | none => simp only [Option.getD_none, hone, hheaders]
    | some l => rfl
  have hm : ",".intercalate (methods.getD ["GET,PUT,HEAD,PATCH,POST,DELETE,OPTIONS"])
      = ",".intercalate (methods.getD
          ["GET", "PUT", "HEAD", "PATCH", "POST", "DELETE", "OPTIONS"]) := by
    cases methods with
    | none => simp only [Option.getD_none, hone, hmethods]
    | some l => rfl
  simp only [_handlerAddCors, Option.getD_some, corsHeaders, hh, hm]
  rcases creds with _ | _ | _ <;> simp

theorem handlerAddCors_policy (handler : Handler) (cors : CorsPolicy) :
    (_handlerAddCors handler (some cors)).2 = resolvedCors cors := rfl

theorem wrapWithCors_ok (handler0 : Handler) (httpEvent : HttpEventConfig)
    (wrapped : Handler × Handler × CorsValue)
    (h : wrapWithCors handler0 httpEvent.cors = .ok wrapped) :
    (∀ value, httpEvent.cors = .primitive value → value.truthy = false) ∧
    wrapped.1 = (fun funcConfs req res =>
      handler0 funcConfs req (res ++ eventCorsHeaders httpEvent)) ∧
    wrapped.2.1 = (fun funcConfs req res =>
      _optionsHandler funcConfs req (res ++ eventCorsHeaders httpEvent)) ∧
    wrapped.2.2 = (eventWithResolvedCors httpEvent).cors := by
  cases hc : httpEvent.cors with
  | absent =>
    rw [hc] at h
    simp only [wrapWithCors, Except.ok.injEq] at h
    rw [← h]
    refine ⟨fun v hv => (by cases hv), ?_, ?_, ?_⟩
    · simp [eventCorsHeaders, hc]
    · simp [eventCorsHeaders, hc]
    · simp [eventWithResolvedCors, hc]
  | primitive v =>
    rw [hc] at h
    simp only [wrapWithCors] at h
    by_cases hv : v.truthy = true
    · simp [hv] at h
    · simp only [hv, Bool.false_eq_true, if_false, Except.ok.injEq] at h
      rw [← h]
      refine ⟨fun v2 hv2 => ?_, ?_, ?_, ?_⟩
      · cases hv2
        simpa using hv
      · simp [eventCorsHeaders, hc]
      · simp [eventCorsHeaders, hc]
      · simp [eventWithResolvedCors, hc]
  | policy c =>
    rw [hc] at h
    simp only [wrapWithCors, Except.ok.injEq] at h
    rw [← h]
    refine ⟨fun v hv => (by cases hv), ?_, ?_, ?_⟩
    · simp only [eventCorsHeaders, hc, handlerAddCors_handler]
    · simp only [eventCorsHeaders, hc, handlerAddCors_handler, handlerAddCors_policy,
        corsHeaders_resolved]
    · simp only [eventWithResolvedCors, hc, handlerAddCors_policy]
      congr 1

theorem wrapWithCors_of_cors (handler0 : Handler) (cors : CorsValue)
    (h : ∀ value, cors = .primitive value → value.truthy = false) :
    ∃ wrapped, wrapWithCors handler0 cors = .ok wrapped := by
  cases cors with
  | absent => exact ⟨_, rfl⟩
  | primitive v =>
    have hv := h v rfl
    exact ⟨(handler0, _optionsHandler, .primitive v), by simp [wrapWithCors, hv]⟩
  | policy c => exact ⟨_, rfl⟩

theorem registerEvent_ok (this : Plugin) (funcConf : Nat) (httpEvent : HttpEventConfig)
    (app : App) (r : App × HttpEventConfig)
    (h : registerEvent this funcConf httpEvent app = .ok r) :
    eventRegisters this httpEvent ∧
    r.2 = eventWithResolvedCors httpEvent ∧
    r.1.consoleLog = app.consoleLog ++ [loggedLine this httpEvent] ∧
    r.1.routes = app.routes ++ expectedRoutes this funcConf httpEvent := by
  obtain ⟨wrapped, hw, hm, hr⟩ := registerEvent_inv this funcConf httpEvent app r h
  obtain ⟨hprim, h1, h2, h3⟩ := wrapWithCors_ok _ httpEvent wrapped hw
  rw [hr]
  refine ⟨⟨hm, hprim⟩, ?_, rfl, ?_⟩
  · simp only [h3]
    rfl
  · simp only [h1, h2, expectedRoutes, routePath, List.append_assoc, List.singleton_append]

theorem registerEvent_of_method (this : Plugin) (funcConf : Nat) (httpEvent : HttpEventConfig)
    (app : App) (h : eventRegisters this httpEvent) :
    ∃ r, registerEvent this funcConf httpEvent app = .ok r := by
  obtain ⟨wrapped, hw⟩ := wrapWithCors_of_cors (_handlerBase this funcConf (some httpEvent))
    httpEvent.cors h.2
  unfold registerEvent
  simp only [hw, h.1]
  exact ⟨_, rfl⟩

theorem registerEvents_ok (this : Plugin) (funcConf : Nat) (events : List HttpEventConfig)
    (app : App) (r : App × List HttpEventConfig)
    (h : registerEvents this funcConf events app = .ok r) :
    (∀ httpEvent ∈ events, eventRegisters this httpEvent) ∧
    r.2 = events.map eventWithResolvedCors ∧
    r.1.consoleLog = app.consoleLog ++ events.map (loggedLine this) ∧
    r.1.routes = app.routes ++ events.flatMap (expectedRoutes this funcConf) := by
  induction events generalizing app r with
  | nil =>
    simp only [registerEvents, Except.ok.injEq] at h
    rw [← h]
    simp
  | cons ev rest ih =>
    simp only [registerEvents, bind, Except.bind] at h
    cases h1 : registerEvent this funcConf ev app with
    | error e => rw [h1] at h; cases h
    | ok r1 =>
      rw [h1] at h
      simp only at h
      cases h2 : registerEvents this funcConf rest r1.1 with
      | error e => rw [h2] at h; cases h
      | ok r2 =>
        rw [h2] at h
        simp only [Except.ok.injEq] at h
        rw [← h]
        obtain ⟨a1, a2, a3, a4⟩ := registerEvent_ok this funcConf ev app r1 h1
        obtain ⟨b1, b2, b3, b4⟩ := ih r1.1 r2 h2
        refine ⟨?_, ?_, ?_, ?_⟩
        · intro x hx
          rcases List.mem_cons.mp hx with rfl | hx
          · exact a1
          · exact b1 x hx
        · simp [a2, b2]
        · simp [a3, b3]
        · simp [a4, b4]

theorem registerEvents_of_methods (this : Plugin) (funcConf : Nat) (events : List HttpEventConfig)
    (app : App)
    (h : ∀ httpEvent ∈ events, eventRegisters this httpEvent) :
    ∃ r, registerEvents this funcConf events app = .ok r := by
  induction events generalizing app with
  | nil => exact ⟨_, rfl⟩
  | cons ev rest ih =>
    obtain ⟨r1, h1⟩ := registerEvent_of_method this funcConf ev app
      (h ev (List.mem_cons_self _ _))
    obtain ⟨r2, h2⟩ := ih r1.1 (fun x hx => h x (List.mem_cons_of_mem _ hx))
    refine ⟨(r2.1, r1.2 :: r2.2), ?_⟩
    simp only [registerEvents, bind, Except.bind, h1, h2]

theorem registerFuncConfs_ok (this : Plugin) (i : Nat) (funcConfs : List FunctionConfig)
    (app : App) (r : App × List FunctionConfig)
    (h : registerFuncConfs this i funcConfs app = .ok r) :
    (∀ httpEvent ∈ allEvents funcConfs, eventRegisters this httpEvent) ∧
    r.2 = funcConfs.map
      (fun funcConf => { funcConf with events := funcConf.events.map eventWithResolvedCors }) ∧
    r.1.consoleLog = app.consoleLog ++ (allEvents funcConfs).map (loggedLine this) ∧
    r.1.routes = app.routes ++ expectedRoutesFrom this i funcConfs := by
  induction funcConfs generalizing i app r with
  | nil =>
    simp only [registerFuncConfs, Except.ok.injEq] at h
    rw [← h]
    simp [allEvents, expectedRoutesFrom]
  | cons conf rest ih =>
    simp only [registerFuncConfs, bind, Except.bind] at h
    cases h1 : registerEvents this i conf.events app with
    | error e => rw [h1] at h; cases h
    | ok r1 =>
      rw [h1] at h
      simp only at h
      cases h2 : registerFuncConfs this (i + 1) rest r1.1 with
      | error e => rw [h2] at h; cases h
      | ok r2 =>
        rw [h2] at h
        simp only [Except.ok.injEq] at h
        rw [← h]
        obtain ⟨a1, a2, a3, a4⟩ := registerEvents_ok this i conf.events app r1 h1
        obtain ⟨b1, b2, b3, b4⟩ := ih (i + 1) r1.1 r2 h2
        refine ⟨?_, ?_, ?_, ?_⟩
        · intro x hx
          simp only [allEvents, List.flatMap_cons, List.mem_append] at hx
          rcases hx with hx | hx
          · exact a1 x hx
          · exact b1 x hx
        · simp [a2, b2]
        · simp [a3, b3, allEvents]
        · simp [a4, b4, expectedRoutesFrom]

theorem registerFuncConfs_of_methods (this : Plugin) (i : Nat) (funcConfs : List FunctionConfig)
    (app : App)
    (h : ∀ httpEvent ∈ allEvents funcConfs, eventRegisters this httpEvent) :
    ∃ r, registerFuncConfs this i funcConfs app = .ok r := by
  induction funcConfs generalizing i app with
  | nil => exact ⟨_, rfl⟩
  | cons conf rest ih =>
    obtain ⟨r1, h1⟩ := registerEvents_of_methods this i conf.events app
      (fun x hx => h x (by simp [allEvents, hx]))
    obtain ⟨r2, h2⟩ := ih (i + 1) r1.1
      (fun x hx => h x (by
        simp only [allEvents, List.flatMap_cons, List.mem_append]
        exact Or.inr hx))
    refine ⟨(r2.1, { conf with events := r1.2 } :: r2.2), ?_⟩
    simp only [registerFuncConfs, bind, Except.bind, h1, h2]

theorem expectedRoutesFrom_mem (this : Plugin) (i k : Nat) (funcConfs : List FunctionConfig)
    (funcConf : FunctionConfig) (httpEvent : HttpEventConfig)
    (hconf : funcConfs[k]? = some funcConf) (hev : httpEvent ∈ funcConf.events) :
    ∀ route ∈ expectedRoutes this (i + k) httpEvent,
      route ∈ expectedRoutesFrom this i funcConfs := by
  induction funcConfs generalizing i k with
  | nil => simp at hconf
  | cons conf rest ih =>
    intro route hroute
    simp only [expectedRoutesFrom, List.mem_append, List.mem_flatMap]
    cases k with
    | zero =>
      simp only [List.getElem?_cons_zero, Option.some.injEq] at hconf
      subst hconf
      exact Or.inl ⟨httpEvent, hev, hroute⟩
    | succ k =>
      simp only [List.getElem?_cons_succ] at hconf
      right
      have := ih (i + 1) k hconf route
      rw [show i + 1 + k = i + (k + 1) by omega] at this
      exact this hroute

theorem expectedRoutesFrom_registrations (this : Plugin) (i : Nat)
    (funcConfs : List FunctionConfig) :
    (expectedRoutesFrom this i funcConfs).map (fun route => (route.method, route.path))
      = (allEvents funcConfs).flatMap (eventRegistrations this) := by
  induction funcConfs generalizing i with
  | nil => rfl
  | cons conf rest ih =>
    simp only [expectedRoutesFrom, allEvents, List.flatMap_cons, List.map_append,
      List.flatMap_append]
    rw [← allEvents, ih (i + 1)]
    congr 1
    induction conf.events with
    | nil => rfl
    | cons ev evs ihe =>
      simp only [List.flatMap_cons, List.map_append, ihe]
      rfl

theorem headerCalls_corsHeaders (cors : CorsPolicy) :
    headerCalls (corsHeaders cors) = corsHeaders cors := by
  unfold corsHeaders headerCalls
  by_cases h : cors.allowCredentials = some true <;> simp [h]

theorem headerCalls_eventCorsHeaders (httpEvent : HttpEventConfig) :
    headerCalls (eventCorsHeaders httpEvent) = eventCorsHeaders httpEvent := by
  unfold eventCorsHeaders
  cases httpEvent.cors with
  | absent => rfl
  | primitive v => rfl
  | policy c => exact headerCalls_corsHeaders c

theorem headerCalls_append (a b : List ResCall) :
    headerCalls (a ++ b) = headerCalls a ++ headerCalls b := by
  simp [headerCalls]

theorem headerCalls_optionsHandler (funcConfs : List FunctionConfig) (req : Req)
    (res : List ResCall) :
    headerCalls (_optionsHandler funcConfs req res).res = headerCalls res := by
  simp [_optionsHandler, headerCalls]

theorem headerCalls_handlerCallback (mode : Bool) (err resp : JSVal) (res res1 : List ResCall)
    (h : handlerCallback mode err resp res = .ok res1) :
    headerCalls res1 = headerCalls res := by
  unfold handlerCallback at h
  split at h
  · simp only [Except.ok.injEq] at h
    rw [← h]
    simp [headerCalls]
  · split at h
    · cases h1 : resp.getProp "statusCode" with
      | error e => simp [h1, bind, Except.bind] at h
      | ok code =>
        cases h2 : resp.getProp "body" with
        | error e => simp [h1, h2, bind, Except.bind] at h
        | ok body =>
          simp only [h1, h2, bind, Except.bind, Except.ok.injEq] at h
          rw [← h]
          simp [headerCalls]
    · simp only [Except.ok.injEq] at h
      rw [← h]
      simp [headerCalls]

theorem headerCalls_handlerBase (this : Plugin) (funcConf : Nat)
    (httpEvent : Option HttpEventConfig) (funcConfs : List FunctionConfig) (req : Req)
    (res : List ResCall) :
    headerCalls (_handlerBase this funcConf httpEvent funcConfs req res).res = headerCalls res := by
  unfold _handlerBase
  simp only
  cases funcConfs[funcConf]? with
  | none => rfl
  | some conf =>
    simp only
    cases conf.handlerFunc with
    | func f =>
      simp only
      cases this.lambda f (invocationEvent httpEvent req) (this.getContext conf.id) with
      | none => rfl
      | some r =>
        obtain ⟨err, resp⟩ := r
        simp only
        cases hcb : handlerCallback (isLambdaProxyIntegration httpEvent) err resp res with
        | error e => rfl
        | ok res1 => exact headerCalls_handlerCallback _ _ _ _ _ hcb
    | _ => rfl

/-- C11: for every HTTP event of a FunctionConfig, the application built by
`_newExpressApp` has an OPTIONS route and a method route at the path of the
event whose handlers are the OPTIONS handler and the base handler run after
the CORS headers of the event's policy have been set; the `res.header` calls
of both are the same, those of the policy, and there are none when the event
has no CORS policy. -/
theorem newExpressApp_cors_on_both_handlers (this : Plugin) (funcConfs : List FunctionConfig)
    (r : App × List FunctionConfig) (i : Nat) (funcConf : FunctionConfig)
    (httpEvent : HttpEventConfig)
    (h : _newExpressApp this funcConfs = .ok r)
    (hconf : funcConfs[i]? = some funcConf) (hev : httpEvent ∈ funcConf.events) :
    ∃ optionsHandler handler : Handler,
      Route.mk "options" (routePath this httpEvent) optionsHandler ∈ r.1.routes ∧
      Route.mk (toLowerCase httpEvent.method) (routePath this httpEvent) handler ∈ r.1.routes ∧
      (httpEvent.cors = .absent → eventCorsHeaders httpEvent = []) ∧
      (∀ value, httpEvent.cors = .primitive value → eventCorsHeaders httpEvent = []) ∧
      (∀ cors, httpEvent.cors = .policy cors → eventCorsHeaders httpEvent = corsHeaders cors) ∧
      ∀ current req res,
        optionsHandler current req res
          = _optionsHandler current req (res ++ eventCorsHeaders httpEvent) ∧
        handler current req res
          = _handlerBase this i (some httpEvent) current req (res ++ eventCorsHeaders httpEvent) ∧
        headerCalls (optionsHandler current req res).res
          = headerCalls res ++ eventCorsHeaders httpEvent ∧
        headerCalls (handler current req res).res
          = headerCalls res ++ eventCorsHeaders httpEvent := by
  obtain ⟨_, _, _, hroutes⟩ := registerFuncConfs_ok this 0 funcConfs _ r h
  simp only [List.nil_append] at hroutes
  have hmem := expectedRoutesFrom_mem this 0 i funcConfs funcConf httpEvent hconf hev
  rw [Nat.zero_add] at hmem
  refine ⟨fun current req res => _optionsHandler current req (res ++ eventCorsHeaders httpEvent),
    fun current req res =>
      _handlerBase this i (some httpEvent) current req (res ++ eventCorsHeaders httpEvent),
    ?_, ?_, ?_, ?_, ?_, ?_⟩
  · rw [hroutes]
    exact hmem _ (by simp [expectedRoutes])
  · rw [hroutes]
    exact hmem _ (by simp [expectedRoutes])
  · intro hnone
    simp [eventCorsHeaders, hnone]
  · intro value hprim
    simp [eventCorsHeaders, hprim]
  · intro cors hsome
    simp [eventCorsHeaders, hsome]
  · intro current req res
    refine ⟨rfl, rfl, ?_, ?_⟩
    · rw [headerCalls_optionsHandler, headerCalls_append, headerCalls_eventCorsHeaders]
    · rw [headerCalls_handlerBase, headerCalls_append, headerCalls_eventCorsHeaders]

/-- Witness for C11: an event with the policy `{allowCredentials: true, origins:
["https://x"]}` has both handlers set Access-Control-Allow-Credentials to
`true` and Access-Control-Allow-Origin to `https://x`. -/
theorem newExpressApp_cors_on_both_handlers_witness :
    eventCorsHeaders corsExampleEvent
      = [ .header "Access-Control-Allow-Credentials" (.bool true),
          .header "Access-Control-Allow-Origin" (.str "https://x"),
          .header "Access-Control-Allow-Headers"
            (.str "Authorization,Content-Type,x-amz-date,x-amz-security-token"),
          .header "Access-Control-Allow-Methods" (.str "GET,PUT,HEAD,PATCH,POST,DELETE,OPTIONS") ] ∧
    ∃ r, _newExpressApp {} [corsExampleConfig] = .ok r ∧
      ∃ optionsHandler handler : Handler,
        Route.mk "options" "/x" optionsHandler ∈ r.1.routes ∧
        Route.mk "get" "/x" handler ∈ r.1.routes ∧
        headerCalls (optionsHandler [] { method := "OPTIONS" } []).res
          = eventCorsHeaders corsExampleEvent ∧
        headerCalls (handler [] { method := "GET" } []).res
          = eventCorsHeaders corsExampleEvent :=
  ⟨rfl, _, rfl,
    (newExpressApp_cors_on_both_handlers {} [corsExampleConfig] _ 0 corsExampleConfig
      corsExampleEvent rfl rfl (List.mem_cons_self _ _)).elim
      (fun optionsHandler hrest => hrest.elim (fun handler hh =>
        ⟨optionsHandler, handler, hh.1, hh.2.1,
          (hh.2.2.2.2.2 [] { method := "OPTIONS" } []).2.2.1,
          (hh.2.2.2.2.2 [] { method := "GET" } []).2.2.2⟩))⟩

theorem eventRegisters_of_routable (this : Plugin) (httpEvent : HttpEventConfig)
    (h : eventIsRoutable this httpEvent) : eventRegisters this httpEvent := by
  refine ⟨?_, h.2⟩
  rw [h.1]
  rfl

/-- C13 (amended): when every HTTP event has a method whose lower case names a
routing method of the express application and a `cors` value that is missing,
a falsy primitive or a policy object, `_newExpressApp` registers for every HTTP
event, in order, two handlers at the path of the event, first for `options`,
then for the lower-cased method, whether or not the event has a CORS policy;
the registrations are twice as many as the HTTP events. -/
theorem newExpressApp_registers_two_per_event (this : Plugin) (funcConfs : List FunctionConfig)
    (hroutable : ∀ httpEvent ∈ allEvents funcConfs, eventIsRoutable this httpEvent) :
    ∃ r, _newExpressApp this funcConfs = .ok r ∧
      r.1.routes.map (fun route => (route.method, route.path))
        = (allEvents funcConfs).flatMap (eventRegistrations this) ∧
      r.1.routes.length = 2 * (allEvents funcConfs).length := by
  obtain ⟨r, hr⟩ := registerFuncConfs_of_methods this 0 funcConfs
    { bodyParserLimit := "5mb", bodyParserType := bodyParserType }
    (fun ev hev => eventRegisters_of_routable this ev (hroutable ev hev))
  obtain ⟨_, _, _, hroutes⟩ := registerFuncConfs_ok this 0 funcConfs _ r hr
  simp only [List.nil_append] at hroutes
  have hreg : r.1.routes.map (fun route => (route.method, route.path))
      = (allEvents funcConfs).flatMap (eventRegistrations this) := by
    rw [hroutes, expectedRoutesFrom_registrations]
  refine ⟨r, hr, hreg, ?_⟩
  have hlen := congrArg List.length hreg
  rw [List.length_map] at hlen
  rw [hlen]
  generalize allEvents funcConfs = events
  induction events with
  | nil => rfl
  | cons ev rest ih =>
    simp only [List.flatMap_cons, List.length_append, List.length_cons, ih, eventRegistrations,
      List.length_nil]
    omega

/-- Witness for C13: the methods `GET`, `Get` and `get` are all registered as
`get`, each after an `options` registration at the same path, with and without
a CORS policy. -/
theorem newExpressApp_registers_two_per_event_witness :
    ∃ r, _newExpressApp expressPlugin [mixedCaseConfig] = .ok r ∧
      r.1.routes.map (fun route => (route.method, route.path))
        = [ ("options", "/a"), ("get", "/a"), ("options", "/b"), ("get", "/b"),
            ("options", "/c"), ("get", "/c") ] ∧
      r.1.routes.length = 2 * 3 :=
  newExpressApp_registers_two_per_event expressPlugin [mixedCaseConfig] (by
    intro ev hev
    simp only [allEvents, mixedCaseConfig, List.flatMap_cons, List.flatMap_nil, List.append_nil,
      List.mem_cons, List.mem_singleton, List.not_mem_nil, or_false] at hev
    rcases hev with rfl | rfl | rfl
    · exact ⟨rfl, fun v h => by cases h⟩
    · exact ⟨rfl, fun v h => by cases h⟩
    · exact ⟨rfl, fun v h => by cases h⟩)

/-- Counterexample to C13 as stated: with `cors: true` the assignment of line 97
raises a TypeError before anything is registered, although `get` is a routing
method; and express has no routing method `foo`, so for an event with the
method `FOO` the call `app[method](path, handler)` raises a TypeError. In both
cases `_newExpressApp` returns no application. -/
theorem newExpressApp_unknown_method :
    (allEvents [corsTrueConfig]).length = 1 ∧
    (∀ httpEvent ∈ allEvents [corsTrueConfig],
      expressPlugin.appMember (toLowerCase httpEvent.method) = .routing) ∧
    (¬ ∃ r, _newExpressApp expressPlugin [corsTrueConfig] = .ok r) ∧
    toLowerCase "FOO" = "foo" ∧ "foo" ∉ expressRoutingMethods ∧
    (allEvents [unknownMethodConfig]).length = 1 ∧
    ¬ ∃ r, _newExpressApp expressPlugin [unknownMethodConfig] = .ok r := by
  refine ⟨by decide, ?_, ?_, by decide, by decide, by decide, ?_⟩
  · intro ev hev
    simp only [allEvents, corsTrueConfig, List.flatMap_cons, List.flatMap_nil, List.append_nil,
      List.mem_singleton] at hev
    rw [hev]
    rfl
  · rintro ⟨r, hr⟩
    have herr : _newExpressApp expressPlugin [corsTrueConfig]
        = .error (.typeError "Cannot create property allowCredentials on a primitive value") :=
      rfl
    rw [herr] at hr
    cases hr
  · rintro ⟨r, hr⟩
    have herr : _newExpressApp expressPlugin [unknownMethodConfig]
        = .error (.typeError "app[method] is not a function") := rfl
    rw [herr] at hr
    cases hr

theorem toUpper_toLower (c : Char) : c.toLower.toUpper = c.toUpper := by
  by_cases h : 65 ≤ c.toNat ∧ c.toNat ≤ 90
  · have hc : c = Char.ofNat c.toNat := (Char.ofNat_toNat c).symm
    obtain ⟨h1, h2⟩ := h
    generalize c.toNat = n at hc h1 h2
    subst hc
    interval_cases n <;> rfl
  · simp only [Char.toLower]
    rw [if_neg h]

theorem toUpperCase_toLowerCase (s : String) : toUpperCase (toLowerCase s) = toUpperCase s := by
  simp only [toUpperCase, toLowerCase, List.map_map]
  congr 1
  apply List.map_congr_left
  intro c _
  exact toUpper_toLower c

theorem routeEndpoint_eq (this : Plugin) (httpEvent : HttpEventConfig) :
    routeEndpoint this httpEvent = stagePart this ++ "/" ++ httpEvent.path := by
  unfold routeEndpoint stagePart
  cases this.stage with
  | none => simp
  | some stage =>
    by_cases hs : stage = ""
    · simp [hs]
    · simp [hs, String.append_assoc]

theorem loggedLine_eq (this : Plugin) (httpEvent : HttpEventConfig) :
    loggedLine this httpEvent = eventLogLine this httpEvent := by
  simp only [loggedLine, eventLogLine, toUpperCase_toLowerCase, routeEndpoint_eq,
    String.append_assoc]

/-- C18 (amended): for every HTTP event, in order, `_newExpressApp` logs one
line: two blanks, the upper-cased method, ` - http://localhost:`, the port of
`_getPort` (the configured port, 8000 when none or 0 is configured) and the
endpoint, which is `/` and the stage when a stage is configured, followed by
`/` and the event path. -/
theorem newExpressApp_logs_endpoint (this : Plugin) (funcConfs : List FunctionConfig)
    (r : App × List FunctionConfig) (h : _newExpressApp this funcConfs = .ok r) :
    r.1.consoleLog = (allEvents funcConfs).map (eventLogLine this) ∧
    (this.port = none → _getPort this = 8000) ∧
    (this.port = some 0 → _getPort this = 8000) ∧
    (∀ port, this.port = some port → port ≠ 0 → _getPort this = port) ∧
    (stagePart this = "" → ∀ httpEvent,
      eventLogLine this httpEvent = eventLogLineWithoutStage this httpEvent) := by
  obtain ⟨_, _, hlog, _⟩ := registerFuncConfs_ok this 0 funcConfs _ r h
  simp only [List.nil_append] at hlog
  refine ⟨?_, ?_, ?_, ?_, ?_⟩
  · rw [hlog]
    apply List.map_congr_left
    intro ev _
    exact loggedLine_eq this ev
  · intro hnone
    simp [_getPort, hnone]
  · intro hzero
    simp [_getPort, hzero]
  · intro port hsome hport
    simp [_getPort, hsome, hport]
  · intro hstage ev
    simp [eventLogLine, eventLogLineWithoutStage, hstage, String.append_assoc]

/-- Witness for C18: without a stage and without a port the event `GET x` is
logged with the port 8000 and the path `/x`. -/
theorem newExpressApp_logs_endpoint_witness :
    ∃ r, _newExpressApp {} [plainConfig] = .ok r ∧
      r.1.consoleLog = ["  GET - http://localhost:8000/x"] :=
  ⟨_, rfl, (newExpressApp_logs_endpoint {} [plainConfig] _ rfl).1.trans (by decide)⟩

/-- Counterexample to C18 as stated: with the stage `dev` the logged line holds
the stage prefix. -/
theorem newExpressApp_logs_stage :
    ∃ r, _newExpressApp { stage := some "dev" } [plainConfig] = .ok r ∧
      r.1.consoleLog = ["  GET - http://localhost:8000/dev/x"] ∧
      r.1.consoleLog
        ≠ (allEvents [plainConfig]).map (eventLogLineWithoutStage { stage := some "dev" }) :=
  ⟨_, rfl, by decide, by decide⟩

/-! ## Identity of the default arrays -/

theorem orArrayLiteral_addresses (next : Nat) (field : Option ArrayObject) (items : List String) :
    (orArrayLiteral next field items).2.map (fun a => a.address)
      = List.range' next (orArrayLiteral next field items).2.length := by
  cases field <;> simp [orArrayLiteral, List.range']

theorem orArrayLiteral_field (next : Nat) (field : Option ArrayObject) (items : List String)
    (created : List ArrayObject)
    (h : ∀ a ∈ (orArrayLiteral next field items).2, a ∈ created) :
    fieldAfter field (some (orArrayLiteral next field items).1) created items := by
  cases field with
  | some a => simp [fieldAfter, orArrayLiteral]
  | none =>
    exact ⟨_, rfl, h _ (by simp [orArrayLiteral]), rfl⟩

theorem assignCorsDefaults_policy (next : Nat) (cors : CorsObject) :
    (assignCorsDefaults next cors).1.policy = resolvedCors cors.policy := by
  rcases cors with ⟨creds, _ | origins, _ | headers, _ | methods⟩ <;> rfl

theorem assignCorsDefaults_addresses (next : Nat) (cors : CorsObject) :
    (assignCorsDefaults next cors).2.map (fun a => a.address)
      = List.range' next (assignCorsDefaults next cors).2.length := by
  rcases cors with ⟨creds, _ | origins, _ | headers, _ | methods⟩ <;>
    simp [assignCorsDefaults, orArrayLiteral, List.range']

theorem assignCorsDefaults_again (next other : Nat) (cors : CorsObject) :
    assignCorsDefaults other (assignCorsDefaults next cors).1
      = ((assignCorsDefaults next cors).1, []) := by
  rcases cors with ⟨creds, _ | origins, _ | headers, _ | methods⟩ <;>
    simp [assignCorsDefaults, orArrayLiteral]

theorem assignCorsDefaults_fields (next : Nat) (cors : CorsObject) :
    (assignCorsDefaults next cors).1.allowCredentials = some (cors.allowCredentials.getD false) ∧
    fieldAfter cors.origins (assignCorsDefaults next cors).1.origins
      (assignCorsDefaults next cors).2 ["*"] ∧
    fieldAfter cors.headers (assignCorsDefaults next cors).1.headers
      (assignCorsDefaults next cors).2
      ["Authorization,Content-Type,x-amz-date,x-amz-security-token"] ∧
    fieldAfter cors.methods (assignCorsDefaults next cors).1.methods
      (assignCorsDefaults next cors).2 ["GET,PUT,HEAD,PATCH,POST,DELETE,OPTIONS"] := by
  refine ⟨rfl, ?_, ?_, ?_⟩
  · exact orArrayLiteral_field _ _ _ _ (fun a ha => by
      simp only [assignCorsDefaults, List.mem_append]
      exact Or.inl (Or.inl ha))
  · exact orArrayLiteral_field _ _ _ _ (fun a ha => by
      simp only [assignCorsDefaults, List.mem_append]
      exact Or.inl (Or.inr ha))
  · exact orArrayLiteral_field _ _ _ _ (fun a ha => by
      simp only [assignCorsDefaults, List.mem_append]
      exact Or.inr ha)

theorem assignCorsDefaultsAll_cons_some (next : Nat) (cors : CorsObject)
    (rest : List (Option CorsObject)) :
    assignCorsDefaultsAll next (some cors :: rest)
      = (some (assignCorsDefaults next cors).1, (assignCorsDefaults next cors).2)
        :: assignCorsDefaultsAll (next + (assignCorsDefaults next cors).2.length) rest := by
  simp only [assignCorsDefaultsAll, assignCorsDefaults_again, List.append_nil, List.length_nil,
    Nat.add_zero]

theorem rangeAppend_of_eq (s : Nat) (l1 l2 : List Nat)
    (h1 : l1 = List.range' s l1.length) (h2 : l2 = List.range' (s + l1.length) l2.length) :
    l1 ++ l2 = List.range' s (l1 ++ l2).length := by
  rw [List.length_append, Nat.add_comm l1.length, ← List.range'_append_1, ← h1, ← h2]

theorem assignCorsDefaultsAll_addresses (next : Nat) (objects : List (Option CorsObject)) :
    (createdAddresses (assignCorsDefaultsAll next objects)).flatten
      = List.range' next (createdAddresses (assignCorsDefaultsAll next objects)).flatten.length := by
  induction objects generalizing next with
  | nil => rfl
  | cons o rest ih =>
    cases o with
    | none =>
      simp only [assignCorsDefaultsAll, createdAddresses, List.map_cons, List.map_nil,
        List.flatten_cons, List.nil_append]
      exact ih next
    | some cors =>
      rw [assignCorsDefaultsAll_cons_some]
      simp only [createdAddresses, List.map_cons, List.flatten_cons]
      refine rangeAppend_of_eq next _ _ ?_ ?_
      · rw [List.length_map]
        exact assignCorsDefaults_addresses next cors
      · rw [List.length_map]
        exact ih (next + (assignCorsDefaults next cors).2.length)

theorem assignCorsDefaultsAll_policies (next : Nat) (objects : List (Option CorsObject)) :
    (assignCorsDefaultsAll next objects).map (fun result => result.1.map CorsObject.policy)
      = objects.map (fun o => o.map (fun cors => resolvedCors cors.policy)) := by
  induction objects generalizing next with
  | nil => rfl
  | cons o rest ih =>
    cases o with
    | none =>
      simp only [assignCorsDefaultsAll, List.map_cons, Option.map_none']
      rw [ih next]
    | some cors =>
      rw [assignCorsDefaultsAll_cons_some]
      simp only [List.map_cons, Option.map_some', assignCorsDefaults_policy]
      rw [ih]

theorem assignCorsDefaultsAll_fields (next : Nat) (objects : List (Option CorsObject)) :
    ∀ result ∈ objects.zip (assignCorsDefaultsAll next objects),
      policyObjectAfter result.1 result.2 := by
  induction objects generalizing next with
  | nil => intro result h; simp at h
  | cons o rest ih =>
    intro result h
    cases o with
    | none =>
      simp only [assignCorsDefaultsAll, List.zip_cons_cons, List.mem_cons] at h
      rcases h with rfl | h
      · rfl
      · exact ih next result h
    | some cors =>
      rw [assignCorsDefaultsAll_cons_some] at h
      simp only [List.zip_cons_cons, List.mem_cons] at h
      rcases h with rfl | h
      · exact ⟨_, rfl, assignCorsDefaults_fields next cors⟩
      · exact ih _ result h

theorem assignCorsDefaultsAll_length (next : Nat) (objects : List (Option CorsObject)) :
    (assignCorsDefaultsAll next objects).length = objects.length := by
  induction objects generalizing next with
  | nil => rfl
  | cons o rest ih =>
    cases o with
    | none => simp [assignCorsDefaultsAll, ih]
    | some cors =>
      rw [assignCorsDefaultsAll_cons_some]
      simp [ih]

theorem allEvents_map_events (f : HttpEventConfig → HttpEventConfig)
    (funcConfs : List FunctionConfig) :
    allEvents (funcConfs.map (fun funcConf => { funcConf with events := funcConf.events.map f }))
      = (allEvents funcConfs).map f := by
  induction funcConfs with
  | nil => rfl
  | cons c rest ih =>
    simp only [allEvents, List.map_cons, List.flatMap_cons, List.map_append] at ih ⊢
    rw [ih]

theorem eventWithResolvedCors_policy? (httpEvent : HttpEventConfig) :
    (eventWithResolvedCors httpEvent).cors.policy? = httpEvent.cors.policy?.map resolvedCors := by
  rcases httpEvent with ⟨m, p, i, c⟩
  cases c <;> rfl

/-! ## The CORS defaults are written into the policy -/

/-- C17 (amended): when the build of the application returns, the method, the
path and the integration of every HTTP event are as they were, a `cors` value
that is missing or a primitive is as it was, and a CORS policy keeps the fields
it had; every missing field of a CORS policy is written into the event's policy
with its default. No default object is shared between events: with the policy
objects of the events on a heap whose first free address is `next`, the
policies after the assignments of lines 97-101 are those of the built events,
every policy object keeps the array objects it had, every field it missed is an
array object created for this event that holds the default, and the array
objects created are new (at `next` or later), all different, and those created
for different events are disjoint. -/
theorem newExpressApp_writes_cors_defaults (this : Plugin) (funcConfs : List FunctionConfig)
    (r : App × List FunctionConfig) (h : _newExpressApp this funcConfs = .ok r)
    (next : Nat) (objects : List (Option CorsObject))
    (hobjects : objects.map (fun o => o.map CorsObject.policy)
      = (allEvents funcConfs).map (fun httpEvent => httpEvent.cors.policy?)) :
    r.2 = funcConfs.map
      (fun funcConf => { funcConf with events := funcConf.events.map eventWithResolvedCors }) ∧
    (∀ httpEvent : HttpEventConfig,
      (eventWithResolvedCors httpEvent).method = httpEvent.method ∧
      (eventWithResolvedCors httpEvent).path = httpEvent.path ∧
      (eventWithResolvedCors httpEvent).integration = httpEvent.integration ∧
      (httpEvent.cors = .absent → eventWithResolvedCors httpEvent = httpEvent) ∧
      (∀ value, httpEvent.cors = .primitive value → eventWithResolvedCors httpEvent = httpEvent) ∧
      ∀ cors, httpEvent.cors = .policy cors →
        (eventWithResolvedCors httpEvent).cors =
          .policy { allowCredentials := some (cors.allowCredentials.getD false)
                    origins := some (cors.origins.getD ["*"])
                    headers := some (cors.headers.getD
                      ["Authorization,Content-Type,x-amz-date,x-amz-security-token"])
                    methods := some (cors.methods.getD
                      ["GET,PUT,HEAD,PATCH,POST,DELETE,OPTIONS"]) }) ∧
    (assignCorsDefaultsAll next objects).map (fun result => result.1.map CorsObject.policy)
      = (allEvents r.2).map (fun httpEvent => httpEvent.cors.policy?) ∧
    (∀ result ∈ objects.zip (assignCorsDefaultsAll next objects),
      policyObjectAfter result.1 result.2) ∧
    (∀ address ∈ (createdAddresses (assignCorsDefaultsAll next objects)).flatten,
      next ≤ address) ∧
    (createdAddresses (assignCorsDefaultsAll next objects)).flatten.Nodup ∧
    (createdAddresses (assignCorsDefaultsAll next objects)).Pairwise List.Disjoint := by
  obtain ⟨_, hconfs, _, _⟩ := registerFuncConfs_ok this 0 funcConfs _ r h
  have hnodup : (createdAddresses (assignCorsDefaultsAll next objects)).flatten.Nodup := by
    rw [assignCorsDefaultsAll_addresses]
    exact List.nodup_range' _ _
  refine ⟨hconfs, ?_, ?_, assignCorsDefaultsAll_fields next objects, ?_, hnodup,
    (List.nodup_flatten.mp hnodup).2⟩
  · intro httpEvent
    refine ⟨rfl, rfl, rfl, ?_, ?_, ?_⟩
    · intro hnone
      rcases httpEvent with ⟨m, p, i, c⟩
      simp only at hnone
      subst hnone
      rfl
    · intro value hvalue
      rcases httpEvent with ⟨m, p, i, c⟩
      simp only at hvalue
      subst hvalue
      rfl
    · intro cors hsome
      simp [eventWithResolvedCors, hsome, resolvedCors]
  · rw [assignCorsDefaultsAll_policies, hconfs, allEvents_map_events, List.map_map]
    have key := congrArg (List.map (fun o : Option CorsPolicy => o.map resolvedCors)) hobjects
    simp only [List.map_map] at key
    refine Eq.trans (Eq.trans ?_ key) ?_
    · apply List.map_congr_left
      intro o _
      cases o <;> rfl
    · apply List.map_congr_left
      intro httpEvent _
      exact (eventWithResolvedCors_policy? httpEvent).symm
  · intro address haddress
    rw [assignCorsDefaultsAll_addresses] at haddress
    exact (List.mem_range'_1.mp haddress).1

/-- Witness for C17: of two events, one with a policy that has only `origins`
and one with the policy `{}`, the first keeps its `origins` and gets the three
other defaults, the second gets the four defaults; with the array of the first
at the address 0, the array objects created are 1 and 2 for the first event and
3, 4 and 5 for the second. -/
theorem newExpressApp_writes_cors_defaults_witness :
    ∃ r, _newExpressApp {} [partialCorsConfig] = .ok r ∧
      r.2.map (fun funcConf => funcConf.events)
        = [[{ method := "GET", path := "x",
              cors := .policy { allowCredentials := some false
                                origins := some ["https://x"]
                                headers := some
                                  ["Authorization,Content-Type,x-amz-date,x-amz-security-token"]
                                methods := some ["GET,PUT,HEAD,PATCH,POST,DELETE,OPTIONS"] } },
            { method := "POST", path := "y",
              cors := .policy { allowCredentials := some false
                                origins := some ["*"]
                                headers := some
                                  ["Authorization,Content-Type,x-amz-date,x-amz-security-token"]
                                methods := some ["GET,PUT,HEAD,PATCH,POST,DELETE,OPTIONS"] } }]] ∧
      createdAddresses (assignCorsDefaultsAll 1 partialCorsObjects) = [[1, 2], [3, 4, 5]] ∧
      (createdAddresses (assignCorsDefaultsAll 1 partialCorsObjects)).Pairwise List.Disjoint :=
  ⟨_, rfl, by
    rw [(newExpressApp_writes_cors_defaults {} [partialCorsConfig] _ rfl 1 partialCorsObjects
      (by decide)).1]
    decide, by decide,
    (newExpressApp_writes_cors_defaults {} [partialCorsConfig] _ rfl 1 partialCorsObjects
      (by decide)).2.2.2.2.2.2⟩

/-- Counterexample to C17 as stated: an event with the CORS policy `{}` has the
four defaults in its policy once the application is built. -/
theorem newExpressApp_mutates_cors_policy :
    ∃ r, _newExpressApp {} [emptyCorsConfig] = .ok r ∧
      r.2.map (fun funcConf => funcConf.events)
        = [[{ method := "GET", path := "x",
              cors := .policy { allowCredentials := some false
                                origins := some ["*"]
                                headers := some
                                  ["Authorization,Content-Type,x-amz-date,x-amz-security-token"]
                                methods := some ["GET,PUT,HEAD,PATCH,POST,DELETE,OPTIONS"] } }]] ∧
      r.2.map (fun funcConf => funcConf.events)
        ≠ [emptyCorsConfig].map (fun funcConf => funcConf.events) :=
  ⟨_, rfl, by decide, by decide⟩

/-! ## The invocation event -/

/-- C12: the event that the handler built by `_handlerBase` passes to the
handler function has `method`, `headers` and `body` of the request and
`resource` equal to `/` followed by the raw path of the HTTP event. The mode
is proxy unless the event declares the integration `lambda`. In proxy mode the
two remaining fields are `pathParameters` and `queryStringParameters`, in
lambda mode `path` and `query`; in both modes they hold `req.params` and
`req.query`. -/
theorem handlerBase_event (this : Plugin) (funcConf : Nat) (httpEvent : HttpEventConfig)
    (funcConfs : List FunctionConfig) (conf : FunctionConfig) (f : Nat) (req : Req)
    (res : List ResCall)
    (hconf : funcConfs[funcConf]? = some conf)
    (hfunc : conf.handlerFunc = .func f) :
    (isLambdaProxyIntegration (some httpEvent) = true ↔ httpEvent.integration ≠ some "lambda") ∧
    (_handlerBase this funcConf (some httpEvent) funcConfs req res).invoked
      = [⟨f,
          .obj ([ ("method", .str req.method),
                  ("headers", req.headersObj),
                  ("body", req.body),
                  ("resource", .str ("/" ++ httpEvent.path)) ] ++
                if httpEvent.integration = some "lambda" then
                  [("path", req.params), ("query", req.query)]
                else
                  [("pathParameters", req.params), ("queryStringParameters", req.query)]),
          this.getContext conf.id⟩] := by
  constructor
  · simp [isLambdaProxyIntegration]
  · have hev : invocationEvent (some httpEvent) req
        = .obj ([ ("method", .str req.method),
                  ("headers", req.headersObj),
                  ("body", req.body),
                  ("resource", .str ("/" ++ httpEvent.path)) ] ++
                if httpEvent.integration = some "lambda" then
                  [("path", req.params), ("query", req.query)]
                else
                  [("pathParameters", req.params), ("queryStringParameters", req.query)]) := by
      by_cases hl : httpEvent.integration = some "lambda"
      · simp [invocationEvent, isLambdaProxyIntegration, eventResource, hl]
      · simp [invocationEvent, isLambdaProxyIntegration, eventResource, hl]
    rw [← hev]
    simp only [_handlerBase, hconf, hfunc]
    cases this.lambda f (invocationEvent (some httpEvent) req) (this.getContext conf.id) with
    | none => rfl
    | some r =>
      obtain ⟨e, resp⟩ := r
      simp only
      cases handlerCallback (isLambdaProxyIntegration (some httpEvent)) e resp res <;> rfl

/-- Witness for C12: the event of a request `GET` for a proxy route with the
path `users/{id}`. -/
theorem handlerBase_event_witness :
    (_handlerBase {} 0 (some { method := "GET", path := "users/{id}" })
        [{ id := "f", events := [], moduleName := "h", handlerFunc := .func 7, handler := "h.f" }]
        { method := "GET", params := .obj [("id", .str "42")] } []).invoked
      = [⟨7,
          .obj [ ("method", .str "GET"), ("headers", .obj []), ("body", .undefined),
                 ("resource", .str "/users/{id}"),
                 ("pathParameters", .obj [("id", .str "42")]),
                 ("queryStringParameters", .obj []) ],
          .undefined⟩] :=
  (handlerBase_event {} 0 { method := "GET", path := "users/{id}" }
    [{ id := "f", events := [], moduleName := "h", handlerFunc := .func 7, handler := "h.f" }]
    { id := "f", events := [], moduleName := "h", handlerFunc := .func 7, handler := "h.f" }
    7 { method := "GET", params := .obj [("id", .str "42")] } [] rfl rfl).2

/-! ## The OPTIONS handler -/

/-- C14 (amended): on a fresh response the OPTIONS handler, with or without the
CORS wrapper, makes the one call `res.sendStatus(200)` after the CORS headers,
never invokes a handler function and raises no error; express answers it with
the status 200 and the status message of 200 as the body. -/
theorem optionsHandler_sends_status (statusMessage : JSVal → JSVal) (cors : Option CorsPolicy)
    (funcConfs : List FunctionConfig) (req : Req) :
    (_optionsHandler funcConfs req []).res = [.sendStatus (.num 200)] ∧
    (_optionsHandler funcConfs req []).invoked = [] ∧
    (_optionsHandler funcConfs req []).thrown = none ∧
    sentResponse statusMessage (_optionsHandler funcConfs req []).res
      = some (.num 200, statusMessage (.num 200)) ∧
    ((_handlerAddCors _optionsHandler cors).1 funcConfs req []).res
      = corsHeaders (cors.getD {}) ++ [.sendStatus (.num 200)] ∧
    ((_handlerAddCors _optionsHandler cors).1 funcConfs req []).invoked = [] ∧
    ((_handlerAddCors _optionsHandler cors).1 funcConfs req []).thrown = none ∧
    sentResponse statusMessage ((_handlerAddCors _optionsHandler cors).1 funcConfs req []).res
      = some (.num 200, statusMessage (.num 200)) := by
  have hwrap : (_handlerAddCors _optionsHandler cors).1 funcConfs req []
      = _optionsHandler funcConfs req ([] ++ corsHeaders (cors.getD {})) := by
    cases cors with
    | none => exact congrFun (congrFun (congrFun (handlerAddCors_handler _optionsHandler {}) _) _) _
    | some c =>
      exact congrFun (congrFun (congrFun (handlerAddCors_handler _optionsHandler c) _) _) _
  rw [hwrap]
  refine ⟨rfl, rfl, rfl, rfl, rfl, rfl, rfl, ?_⟩
  simp only [_optionsHandler, List.nil_append, corsHeaders, sentResponse]
  by_cases hc : (cors.getD {}).allowCredentials = some true
  · simp [hc, sentResponseFrom]
  · simp [hc, sentResponseFrom]

/-- Counterexample to C14 as stated: express answers `res.sendStatus(200)` with
the body `OK`, which is not an empty body. -/
theorem optionsHandler_body_is_status_message :
    sentResponse expressStatusMessage (_optionsHandler [] { method := "OPTIONS" } []).res
      = some (.num 200, .str "OK") ∧
    sentResponse expressStatusMessage (_optionsHandler [] { method := "OPTIONS" } []).res
      ≠ some (.num 200, .str "") ∧
    sentResponse expressStatusMessage (_optionsHandler [] { method := "OPTIONS" } []).res
      ≠ some (.num 200, .undefined) := by
  refine ⟨rfl, ?_, ?_⟩
  · intro h
    have h1 : sentResponse expressStatusMessage
        (_optionsHandler [] { method := "OPTIONS" } []).res = some (.num 200, .str "OK") := rfl
    rw [h1] at h
    simp at h
  · intro h
    have h1 : sentResponse expressStatusMessage
        (_optionsHandler [] { method := "OPTIONS" } []).res = some (.num 200, .str "OK") := rfl
    rw [h1] at h
    simp at h

/-! ## Module names -/

theorem splitChars_ne_nil (sep : Char) (s : List Char) : splitChars sep s ≠ [] := by
  cases s with
  | nil => simp [splitChars]
  | cons c cs =>
    unfold splitChars
    split
    · simp
    · split <;> simp

theorem splitChars_head (s : List Char) :
    (splitChars '.' s).headD [] = s.takeWhile (fun c => c != '.') := by
  induction s with
  | nil => rfl
  | cons c cs ih =>
    unfold splitChars
    by_cases hc : c = '.'
    · simp [hc]
    · simp only [hc, if_false]
      have hne := splitChars_ne_nil '.' cs
      cases hs : splitChars '.' cs with
      | nil => exact absurd hs hne
      | cons piece pieces =>
        rw [hs] at ih
        simp only [List.headD_cons] at ih ⊢
        have hb : (c != '.') = true := by simp [hc]
        rw [List.takeWhile_cons, hb, ih]
        rfl

theorem takeWhile_dot_prefix (s : List Char) :
    s.takeWhile (fun c => c != '.') = s ∨ (s.takeWhile (fun c => c != '.') ++ ['.']) <+: s := by
  induction s with
  | nil => left; rfl
  | cons d ds ih =>
    by_cases hd : d = '.'
    · right
      simp [List.takeWhile, hd]
    · have hb : (d != '.') = true := by simp [hd]
      rw [List.takeWhile_cons, hb]
      simp only [if_true]
      rcases ih with ih | ih
      · left
        rw [ih]
      · right
        exact (List.prefix_cons_inj d).mpr ih

theorem splitDotFirst_eq (handler : String) : splitDotFirst handler = beforeFirstDot handler := by
  simp only [splitDotFirst, beforeFirstDot, splitChars_head]

/-- C15: the `moduleName` of every FunctionConfig that `_getFuncConfigs` returns
is the part of the function's handler reference before its first `.`, the whole
reference when it has no `.`; so two FunctionConfigs have the same `moduleName`
exactly when their handler references agree up to the first `.`. -/
theorem getFuncConfigs_moduleName (this : Plugin) :
    (_getFuncConfigs this).map (fun c => (c.id, c.handler, c.moduleName))
      = ((forInOrder this.functions).filter (fun f => hasHttpEvent f.2)).map
          (fun f => (f.1, f.2.handler, beforeFirstDot f.2.handler)) ∧
    (∀ c ∈ _getFuncConfigs this,
      c.moduleName = beforeFirstDot c.handler ∧
      c.moduleName.data <+: c.handler.data ∧
      '.' ∉ c.moduleName.data ∧
      (c.moduleName = c.handler ∨
        (c.moduleName.data ++ ['.']) <+: c.handler.data)) ∧
    ∀ c1 ∈ _getFuncConfigs this, ∀ c2 ∈ _getFuncConfigs this,
      (c1.moduleName = c2.moduleName ↔ beforeFirstDot c1.handler = beforeFirstDot c2.handler) := by
  have hmod : ∀ c ∈ _getFuncConfigs this, c.moduleName = beforeFirstDot c.handler := by
    intro c hc
    rw [getFuncConfigs_eq, List.mem_map] at hc
    obtain ⟨f, _, hf⟩ := hc
    rw [← hf]
    simp [funcConfigOf, splitDotFirst_eq]
  refine ⟨?_, ?_, ?_⟩
  · rw [getFuncConfigs_eq, List.map_map]
    apply List.map_congr_left
    intro f _
    simp [funcConfigOf, splitDotFirst_eq]
  · intro c hc
    rw [hmod c hc]
    refine ⟨rfl, ?_, ?_, ?_⟩
    · exact List.takeWhile_prefix _
    · intro hmem
      have := List.mem_takeWhile_imp hmem
      simp at this
    · rcases takeWhile_dot_prefix c.handler.data with key | key
      · left
        apply String.ext
        exact key
      · right
        exact key
  · intro c1 h1 c2 h2
    rw [hmod c1 h1, hmod c2 h2]

/-! ## A failed build -/

theorem watchCallback_of_effects (this : Plugin) (err stats : JSVal) (state : ServeState) :
    watchCallback this err stats state =
      match (watchCallbackEffects this err stats state).2 with
      | none => .ok (watchCallbackEffects this err stats state).1
      | some e => .error e := by
  unfold watchCallback watchCallbackEffects
  split <;> rfl

/-- C16: when the build notification carries an error, the watch callback
raises that error and does nothing else: no call of `loadHandler` is made and
every FunctionConfig, its `handlerFunc` included, is as it was. -/
theorem watchCallback_build_error (this : Plugin) (err stats : JSVal) (state : ServeState)
    (herr : err.truthy = true) :
    watchCallback this err stats state = .error (.thrown err) ∧
    (watchCallbackEffects this err stats state).2 = some (.thrown err) ∧
    (watchCallbackEffects this err stats state).1.loadCalls = state.loadCalls ∧
    (watchCallbackEffects this err stats state).1.funcConfs = state.funcConfs ∧
    (watchCallbackEffects this err stats state).1.funcConfs.map (fun c => c.handlerFunc)
      = state.funcConfs.map (fun c => c.handlerFunc) := by
  simp [watchCallback, watchCallbackEffects, herr]

/-- Witness for C16: a notification with the error `boom` leaves the function 1
in place and calls no loader. -/
theorem watchCallback_build_error_witness :
    watchCallback { loadHandler := fun _ _ _ _ => .func 2 } (.str "boom") .null
        { funcConfs := [{ id := "f", events := [], moduleName := "a", handlerFunc := .func 1,
                          handler := "a.x" }] }
      = .error (.thrown (.str "boom")) ∧
    (watchCallbackEffects { loadHandler := fun _ _ _ _ => .func 2 } (.str "boom") .null
        { funcConfs := [{ id := "f", events := [], moduleName := "a", handlerFunc := .func 1,
                          handler := "a.x" }] }).1.loadCalls.length = 0 :=
  ⟨(watchCallback_build_error { loadHandler := fun _ _ _ _ => .func 2 } (.str "boom") .null
      { funcConfs := [{ id := "f", events := [], moduleName := "a", handlerFunc := .func 1,
                        handler := "a.x" }] } rfl).1,
    rfl⟩

/-! ## Missing values -/

/-- C19: in proxy mode a callback with a falsy error and the response `null` or
`undefined` makes the handler raise a TypeError at `resp.statusCode` and make
no call on `res`; in lambda mode the same callback answers with status 200 and
that value as the body. -/
theorem handlerBase_missing_response (this : Plugin) (funcConf : Nat) (httpEvent : HttpEventConfig)
    (funcConfs : List FunctionConfig) (conf : FunctionConfig) (f : Nat) (req : Req)
    (res : List ResCall) (err resp : JSVal)
    (hconf : funcConfs[funcConf]? = some conf)
    (hfunc : conf.handlerFunc = .func f)
    (herr : err.truthy = false)
    (hresp : resp = .null ∨ resp = .undefined)
    (hcall : this.lambda f (invocationEvent (some httpEvent) req) (this.getContext conf.id)
      = some (err, resp)) :
    (httpEvent.integration ≠ some "lambda" →
      (∃ msg, (_handlerBase this funcConf (some httpEvent) funcConfs req res).thrown
        = some (.typeError msg)) ∧
      (_handlerBase this funcConf (some httpEvent) funcConfs req res).res = res) ∧
    (httpEvent.integration = some "lambda" →
      (_handlerBase this funcConf (some httpEvent) funcConfs req res).thrown = none ∧
      (_handlerBase this funcConf (some httpEvent) funcConfs req res).res
        = res ++ [.status (.num 200), .send resp]) := by
  rw [handlerBase_of_callback this funcConf (some httpEvent) funcConfs conf f req res err
    resp hconf hfunc hcall]
  constructor
  · intro hproxy
    have hmode : isLambdaProxyIntegration (some httpEvent) = true := by
      simp [isLambdaProxyIntegration, hproxy]
    rcases hresp with h | h <;> subst h <;>
      simp [handlerCallback, herr, hmode, JSVal.getProp, bind, Except.bind]
  · intro hlambda
    have hmode : isLambdaProxyIntegration (some httpEvent) = false := by
      simp [isLambdaProxyIntegration, hlambda]
    simp [handlerCallback, herr, hmode]

/-- Witness for C19: the callback `(null, null)` in proxy mode raises a
TypeError and sends nothing. -/
theorem handlerBase_missing_response_witness :
    (∃ msg, (_handlerBase { lambda := fun _ _ _ => some (.null, .null) } 0
        (some { method := "GET", path := "x" })
        [{ id := "f", events := [], moduleName := "h", handlerFunc := .func 7, handler := "h.f" }]
        { method := "GET" } []).thrown = some (.typeError msg)) ∧
    (_handlerBase { lambda := fun _ _ _ => some (.null, .null) } 0
        (some { method := "GET", path := "x" })
        [{ id := "f", events := [], moduleName := "h", handlerFunc := .func 7, handler := "h.f" }]
        { method := "GET" } []).res = [] :=
  (handlerBase_missing_response { lambda := fun _ _ _ => some (.null, .null) } 0
    { method := "GET", path := "x" }
    [{ id := "f", events := [], moduleName := "h", handlerFunc := .func 7, handler := "h.f" }]
    { id := "f", events := [], moduleName := "h", handlerFunc := .func 7, handler := "h.f" }
    7 { method := "GET" } [] .null .null rfl rfl rfl (Or.inl rfl) rfl).1 (by decide)

/-- C20: every FunctionConfig that `_getFuncConfigs` returns has the
`handlerFunc` `null`; a handler built by `_handlerBase` that runs while the
`handlerFunc` of its FunctionConfig is `null` raises a TypeError, invokes
nothing and makes no call on `res`; when the `handlerFunc` is a function, the
handler invokes it exactly once. -/
theorem handlerBase_before_first_build (this : Plugin) :
    (∀ c ∈ _getFuncConfigs this, c.handlerFunc = .null) ∧
    (∀ (funcConf : Nat) (httpEvent : Option HttpEventConfig) (funcConfs : List FunctionConfig)
        (conf : FunctionConfig) (req : Req) (res : List ResCall),
      funcConfs[funcConf]? = some conf → conf.handlerFunc = .null →
        (∃ msg, (_handlerBase this funcConf httpEvent funcConfs req res).thrown
          = some (.typeError msg)) ∧
        (_handlerBase this funcConf httpEvent funcConfs req res).invoked = [] ∧
        (_handlerBase this funcConf httpEvent funcConfs req res).res = res) ∧
    (∀ (funcConf : Nat) (httpEvent : Option HttpEventConfig) (funcConfs : List FunctionConfig)
        (conf : FunctionConfig) (f : Nat) (req : Req) (res : List ResCall),
      funcConfs[funcConf]? = some conf → conf.handlerFunc = .func f →
        (_handlerBase this funcConf httpEvent funcConfs req res).invoked
          = [⟨f, invocationEvent httpEvent req, this.getContext conf.id⟩] ∧
        (_handlerBase this funcConf httpEvent funcConfs req res).invoked.length = 1) := by
  refine ⟨?_, ?_, ?_⟩
  · intro c hc
    rw [getFuncConfigs_eq, List.mem_map] at hc
    obtain ⟨f, _, hf⟩ := hc
    rw [← hf]
    rfl
  · intro funcConf httpEvent funcConfs conf req res hconf hnull
    simp [_handlerBase, hconf, hnull]
  · intro funcConf httpEvent funcConfs conf f req res hconf hfunc
    have hinv : (_handlerBase this funcConf httpEvent funcConfs req res).invoked
        = [⟨f, invocationEvent httpEvent req, this.getContext conf.id⟩] := by
      simp only [_handlerBase, hconf, hfunc]
      cases this.lambda f (invocationEvent httpEvent req) (this.getContext conf.id) with
      | none => rfl
      | some r =>
        obtain ⟨e, resp⟩ := r
        simp only
        cases handlerCallback (isLambdaProxyIntegration httpEvent) e resp res <;> rfl
    exact ⟨hinv, by rw [hinv]; rfl⟩

/-- Witness for C20: a request that arrives before the first build finds the
`handlerFunc` `null` and ends in a TypeError without a response. -/
theorem handlerBase_before_first_build_witness :
    (_getFuncConfigs
        { functions := [("f", { handler := "h.f",
                                events := [{ http := some { method := "GET", path := "x" } }] })] }).map
        (fun c => c.id) = ["f"] ∧
    (_handlerBase {} 0 none [plainConfig] { method := "GET" } []).invoked = [] ∧
    (_handlerBase {} 0 none [plainConfig] { method := "GET" } []).res = [] :=
  ⟨by decide,
    ((handlerBase_before_first_build {}).2.1 0 none [plainConfig] plainConfig { method := "GET" } []
      rfl rfl).2⟩

end ServerlessWebpack
